import Mathlib

/-!
Verification development for the MCS HTTP/REST driver pair
(`drivers/http_rest/http_rest_driver.py` and
`mcs/drivers/rest_http/rest_http_driver.py`).

The Python sources are shallowly embedded: JSON values become an inductive
type, `json.loads` / `json.dumps` become an executable parser / serializer,
the drivers' request dispatch becomes explicit state passing over an
`Option String` memo field, and the HTTP transport becomes a function-valued
oracle from requests to responses.  Python exceptions are modelled with
`Except`.
-/

set_option autoImplicit false

namespace MCS

/-- JSON values as produced by `json.loads`.  Numbers keep their source
token (the drivers never do arithmetic on them); objects are
insertion-ordered association lists, as Python dicts are. -/
inductive Json where
  | null : Json
  | bool (b : Bool) : Json
  | num (raw : String) : Json
  | str (s : String) : Json
  | arr (xs : List Json) : Json
  | obj (kvs : List (String × Json)) : Json

/-- First-match association-list lookup, the model of Python `dict.get`
for string keys. -/
def alookup (kvs : List (String × Json)) (k : String) : Option Json :=
  match kvs with
  | [] => none
  | (k', v) :: rest => if k' = k then some v else alookup rest k

/-- `dict.get(k, d)`: lookup with a default. -/
def getDefault (kvs : List (String × Json)) (k : String) (d : Json) : Json :=
  (alookup kvs k).getD d

/-- Insertion into a Python dict: an existing key keeps its position and
takes the new value, a new key is appended. -/
def objInsert (kvs : List (String × Json)) (k : String) (v : Json) :
    List (String × Json) :=
  match kvs with
  | [] => [(k, v)]
  | (k', v') :: rest =>
    if k' = k then (k', v) :: rest else (k', v') :: objInsert rest k v

/-- `dict.pop(k, None)`: remove the entry with key `k`, if any. -/
def objErase (kvs : List (String × Json)) (k : String) : List (String × Json) :=
  match kvs with
  | [] => []
  | (k', v') :: rest =>
    if k' = k then rest else (k', v') :: objErase rest k

/-- JSON insignificant whitespace, as accepted by Python's `json.loads`. -/
def isJsonWs (c : Char) : Bool :=
  c = ' ' ∨ c = '\t' ∨ c = '\n' ∨ c = '\r'

/-- Skip JSON whitespace. -/
def jsonSkipWs (cs : List Char) : List Char :=
  cs.dropWhile isJsonWs

/-- Hex digit value, for `\uXXXX` string escapes. -/
def hexVal (c : Char) : Option Nat :=
  if '0' ≤ c ∧ c ≤ '9' then some (c.toNat - '0'.toNat)
  else if 'a' ≤ c ∧ c ≤ 'f' then some (c.toNat - 'a'.toNat + 10)
  else if 'A' ≤ c ∧ c ≤ 'F' then some (c.toNat - 'A'.toNat + 10)
  else none

/-- Decode the four hex digits of a `\uXXXX` escape. -/
def hex4 (a b c d : Char) : Option Nat :=
  match hexVal a, hexVal b, hexVal c, hexVal d with
  | some x, some y, some z, some w => some (((x * 16 + y) * 16 + z) * 16 + w)
  | _, _, _, _ => none

/-- Body of a JSON string literal, after the opening quote: returns the
decoded characters and the input after the closing quote.  Unescaped
control characters are rejected, as in Python's strict mode. -/
def parseStrChars : List Char → Option (List Char × List Char)
  | [] => none
  | '"' :: r => some ([], r)
  | '\\' :: e :: r =>
    match e with
    | '"' => (parseStrChars r).map (fun p => ('"' :: p.1, p.2))
    | '\\' => (parseStrChars r).map (fun p => ('\\' :: p.1, p.2))
    | '/' => (parseStrChars r).map (fun p => ('/' :: p.1, p.2))
    | 'b' => (parseStrChars r).map (fun p => ('\x08' :: p.1, p.2))
    | 'f' => (parseStrChars r).map (fun p => ('\x0c' :: p.1, p.2))
    | 'n' => (parseStrChars r).map (fun p => ('\n' :: p.1, p.2))
    | 'r' => (parseStrChars r).map (fun p => ('\r' :: p.1, p.2))
    | 't' => (parseStrChars r).map (fun p => ('\t' :: p.1, p.2))
    | 'u' =>
      match r with
      | a :: b :: c :: d :: r' =>
        match hex4 a b c d with
        | some n => (parseStrChars r').map (fun p => (Char.ofNat n :: p.1, p.2))
        | none => none
      | _ => none
    | _ => none
  | c :: r =>
    if c.toNat < 32 then none
    else (parseStrChars r).map (fun p => (c :: p.1, p.2))

/-- `'1'`–`'9'`. -/
def isDigit19 (c : Char) : Bool := '1' ≤ c ∧ c ≤ '9'

/-- Lex a JSON number token (`-?(0|[1-9][0-9]*)(\.[0-9]+)?([eE][+-]?[0-9]+)?`),
keeping the raw token text. -/
def parseNum (cs : List Char) : Option (Json × List Char) :=
  let (sign, cs1) :=
    match cs with
    | '-' :: r => (['-'], r)
    | _ => (([] : List Char), cs)
  match cs1 with
  | c :: r =>
    if c = '0' ∨ isDigit19 c then
      let (intDigits, rest0) :=
        if c = '0' then (([] : List Char), r)
        else (r.takeWhile Char.isDigit, r.dropWhile Char.isDigit)
      let intPart := c :: intDigits
      let (fracPart, rest1) :=
        match rest0 with
        | '.' :: r2 =>
          let ds := r2.takeWhile Char.isDigit
          if ds = [] then (([] : List Char), rest0)
          else ('.' :: ds, r2.dropWhile Char.isDigit)
        | _ => (([] : List Char), rest0)
      if fracPart = [] ∧ rest0 ≠ rest1 then none
      else
        let (expPart, rest2) :=
          match rest1 with
          | e :: r3 =>
            if e = 'e' ∨ e = 'E' then
              let (esign, r4) :=
                match r3 with
                | '+' :: r5 => (['+'], r5)
                | '-' :: r5 => (['-'], r5)
                | _ => (([] : List Char), r3)
              let ds := r4.takeWhile Char.isDigit
              if ds = [] then (([] : List Char), rest1)
              else (e :: (esign ++ ds), r4.dropWhile Char.isDigit)
            else (([] : List Char), rest1)
          | _ => (([] : List Char), rest1)
        some (.num (String.mk (sign ++ intPart ++ fracPart ++ expPart)), rest2)
    else none
  | [] => none

mutual

/-- Recursive-descent JSON value parser, fuelled to make termination
structural.  Mirrors Python's `json.loads` grammar. -/
def parseVal : Nat → List Char → Option (Json × List Char)
  | 0, _ => none
  | f + 1, cs =>
    match cs with
    | 'n' :: 'u' :: 'l' :: 'l' :: r => some (.null, r)
    | 't' :: 'r' :: 'u' :: 'e' :: r => some (.bool true, r)
    | 'f' :: 'a' :: 'l' :: 's' :: 'e' :: r => some (.bool false, r)
    | '"' :: r => (parseStrChars r).map (fun p => (.str (String.mk p.1), p.2))
    | '[' :: r =>
      (match jsonSkipWs r with
       | ']' :: r' => some (.arr [], r')
       | r' => parseArrItems f r' [])
    | '\x7b' :: r =>
      (match jsonSkipWs r with
       | '\x7d' :: r' => some (.obj [], r')
       | r' => parseObjItems f r' [])
    | _ => parseNum cs

/-- Comma-separated array items after `[`. -/
def parseArrItems : Nat → List Char → List Json → Option (Json × List Char)
  | 0, _, _ => none
  | f + 1, cs, acc =>
    match parseVal f cs with
    | none => none
    | some (v, r) =>
      match jsonSkipWs r with
      | ',' :: r' => parseArrItems f (jsonSkipWs r') (acc ++ [v])
      | ']' :: r' => some (.arr (acc ++ [v]), r')
      | _ => none

/-- Comma-separated `"key": value` members after a non-empty `{`. -/
def parseObjItems : Nat → List Char → List (String × Json) →
    Option (Json × List Char)
  | 0, _, _ => none
  | f + 1, cs, acc =>
    match cs with
    | '"' :: r =>
      (match parseStrChars r with
       | none => none
       | some (kcs, r1) =>
         match jsonSkipWs r1 with
         | ':' :: r2 =>
           (match parseVal f (jsonSkipWs r2) with
            | none => none
            | some (v, r3) =>
              let acc' := objInsert acc (String.mk kcs) v
              match jsonSkipWs r3 with
              | ',' :: r4 => parseObjItems f (jsonSkipWs r4) acc'
              | '\x7d' :: r4 => some (.obj acc', r4)
              | _ => none)
         | _ => none)
    | _ => none

end

/-- Model of `json.loads`: `none` stands for `json.JSONDecodeError`. -/
def loads (s : String) : Option Json :=
  match parseVal (2 * (jsonSkipWs s.data).length + 2) (jsonSkipWs s.data) with
  | some (v, rest) => if jsonSkipWs rest = [] then some v else none
  | none => none

/-- Hex digit character for serializer escapes. -/
def hexDigitChar (n : Nat) : Char :=
  if n < 10 then Char.ofNat ('0'.toNat + n) else Char.ofNat ('a'.toNat + (n - 10))

/-- Four-digit lowercase hex, as in `json.dumps` `\uXXXX` escapes. -/
def hex4Str (n : Nat) : String :=
  String.mk [hexDigitChar (n / 4096 % 16), hexDigitChar (n / 256 % 16),
             hexDigitChar (n / 16 % 16), hexDigitChar (n % 16)]

/-- Escape one character as Python's default (`ensure_ascii=True`)
`json.dumps` does. -/
def escChar (c : Char) : String :=
  if c = '"' then "\\\""
  else if c = '\\' then "\\\\"
  else if c = '\n' then "\\n"
  else if c = '\r' then "\\r"
  else if c = '\t' then "\\t"
  else if c = '\x08' then "\\b"
  else if c = '\x0c' then "\\f"
  else if c.toNat < 32 then "\\u" ++ hex4Str c.toNat
  else if c.toNat ≤ 126 then String.singleton c
  else if c.toNat ≤ 65535 then "\\u" ++ hex4Str c.toNat
  else
    "\\u" ++ hex4Str (55296 + (c.toNat - 65536) / 1024) ++
    "\\u" ++ hex4Str (56320 + (c.toNat - 65536) % 1024)

/-- Serialize a string literal with quotes. -/
def dumpStr (s : String) : String :=
  "\"" ++ String.join (s.data.map escChar) ++ "\""

mutual

/-- Model of `json.dumps` with default separators. -/
def dumpsJ : Json → String
  | .null => "null"
  | .bool true => "true"
  | .bool false => "false"
  | .num raw => raw
  | .str s => dumpStr s
  | .arr xs => "[" ++ dumpsArr xs ++ "]"
  | .obj kvs => "\x7b" ++ dumpsObjPairs kvs ++ "\x7d"

/-- Array elements joined by `", "`. -/
def dumpsArr : List Json → String
  | [] => ""
  | [x] => dumpsJ x
  | x :: y :: xs => dumpsJ x ++ ", " ++ dumpsArr (y :: xs)

/-- Object members joined by `", "` with `": "` separators. -/
def dumpsObjPairs : List (String × Json) → String
  | [] => ""
  | [(k, v)] => dumpStr k ++ ": " ++ dumpsJ v
  | (k, v) :: p :: kvs => dumpStr k ++ ": " ++ dumpsJ v ++ ", " ++ dumpsObjPairs (p :: kvs)

end

/-- Python whitespace for `str.strip()` (ASCII portion). -/
def isPyWs (c : Char) : Bool :=
  c = ' ' ∨ c = '\t' ∨ c = '\n' ∨ c = '\r' ∨ c = '\x0b' ∨ c = '\x0c'

/-- `str.strip()` on character lists. -/
def pyStripL (cs : List Char) : List Char :=
  ((cs.dropWhile isPyWs).reverse.dropWhile isPyWs).reverse

/-- `str.lstrip("/")`. -/
def lstripSlashL (cs : List Char) : List Char :=
  cs.dropWhile (fun c => c = '/')

/-- `str.rstrip("/")`. -/
def rstripSlashL (cs : List Char) : List Char :=
  (cs.reverse.dropWhile (fun c => c = '/')).reverse

/-- `str.rstrip("/")` on strings, as applied to the resolved base URL. -/
def pyRstripSlash (s : String) : String :=
  String.mk (rstripSlashL s.data)

/-- Does the mantissa of a JSON number token denote zero?  (Python bool()
of the parsed number.) -/
def numTokenIsZero (raw : String) : Bool :=
  (raw.data.takeWhile (fun c => c ≠ 'e' ∧ c ≠ 'E')).all
    (fun c => ¬ isDigit19 c)

/-- Python truthiness of a JSON-decoded value. -/
def pyTruthy : Json → Bool
  | .null => false
  | .bool b => b
  | .num raw => ¬ numTokenIsZero raw
  | .str s => s ≠ ""
  | .arr xs => ¬ xs.isEmpty
  | .obj kvs => ¬ kvs.isEmpty

/-- Truthiness of an optional value (Python `None` is falsy). -/
def pyTruthyO : Option Json → Bool
  | none => false
  | some v => pyTruthy v

/-- ASCII `str.upper()`, for HTTP method names. -/
def pyUpper (s : String) : String :=
  String.mk (s.data.map Char.toUpper)

/-! ## URL parsing and joining (model of `urllib.parse`) -/

/-- Split off everything before the first occurrence of `c`; the second
component is `some rest` when `c` occurs (`rest` is what follows it). -/
def splitOnceChar (c : Char) (l : List Char) : List Char × Option (List Char) :=
  let pre := l.takeWhile (fun x => x ≠ c)
  match l.dropWhile (fun x => x ≠ c) with
  | [] => (pre, none)
  | _ :: rest => (pre, some rest)

/-- Characters allowed in a URL scheme after the first letter. -/
def schemeChar (c : Char) : Bool :=
  (97 ≤ c.toNat ∧ c.toNat ≤ 122) ∨ (65 ≤ c.toNat ∧ c.toNat ≤ 90) ∨
    (48 ≤ c.toNat ∧ c.toNat ≤ 57) ∨ c = '+' ∨ c = '-' ∨ c = '.'

/-- ASCII letter test (`str.isalpha` for ASCII). -/
def isAsciiAlpha (c : Char) : Bool :=
  (97 ≤ c.toNat ∧ c.toNat ≤ 122) ∨ (65 ≤ c.toNat ∧ c.toNat ≤ 90)

/-- A character terminating the network-location part. -/
def netlocEnd (c : Char) : Bool :=
  c = '/' ∨ c = '?' ∨ c = '#'

/-- C0 control characters and space, stripped from URL ends by
`urllib.parse`. -/
def c0OrSpace (c : Char) : Bool :=
  c.toNat ≤ 32

/-- Tab, CR and LF, removed from URLs entirely by `urllib.parse`. -/
def unsafeUrlChar (c : Char) : Bool :=
  c = '\t' ∨ c = '\r' ∨ c = '\n'

/-- Components returned by `urllib.parse.urlsplit` (the `params` field of
`urlparse` is not modelled; it only differs for `;` paths, which the
driver never produces). -/
structure UrlParts where
  scheme : List Char
  netloc : List Char
  path : List Char
  query : List Char
  fragment : List Char
deriving Repr, DecidableEq

/-- Model of `urllib.parse.urlsplit(url, defScheme)` on character lists:
strip control chars/space at the ends, drop tab/CR/LF, then split off
scheme, `//netloc`, `#fragment` and `?query`. -/
def urlsplitL (url0 defScheme : List Char) : UrlParts :=
  let u1 := ((url0.dropWhile c0OrSpace).reverse.dropWhile c0OrSpace).reverse
  let u2 := u1.filter (fun c => !unsafeUrlChar c)
  let schemeRest :=
    match splitOnceChar ':' u2 with
    | (pre, some post) =>
      if pre ≠ [] ∧ isAsciiAlpha pre.headI ∧ pre.all schemeChar
      then (pre.map Char.toLower, post) else (defScheme, u2)
    | (_, none) => (defScheme, u2)
  let netlocRest :=
    match schemeRest.2 with
    | '/' :: '/' :: r => (r.takeWhile (fun c => !netlocEnd c),
                          r.dropWhile (fun c => !netlocEnd c))
    | other => ([], other)
  let pathFrag :=
    match splitOnceChar '#' netlocRest.2 with
    | (pre, some post) => (pre, post)
    | (pre, none) => (pre, [])
  let pathQuery :=
    match splitOnceChar '?' pathFrag.1 with
    | (pre, some post) => (pre, post)
    | (pre, none) => (pre, [])
  ⟨schemeRest.1, netlocRest.1, pathQuery.1, pathQuery.2, pathFrag.2⟩

/-- Model of `urllib.parse.urlunsplit`. -/
def urlunsplitL (u : UrlParts) : List Char :=
  let url := u.path
  let url :=
    if u.netloc ≠ [] ∨ (url ≠ [] ∧ url.take 2 = ['/', '/']) then
      '/' :: '/' :: u.netloc ++
        (if url ≠ [] ∧ url.take 1 ≠ ['/'] then '/' :: url else url)
    else url
  let url := if u.scheme ≠ [] then u.scheme ++ ':' :: url else url
  let url := if u.query ≠ [] then url ++ '?' :: u.query else url
  if u.fragment ≠ [] then url ++ '#' :: u.fragment else url

/-- Schemes for which `urljoin` applies relative-reference semantics
(`urllib.parse.uses_relative`). -/
def usesRelative : List (List Char) :=
  [[], "ftp".data, "http".data, "gopher".data, "nntp".data, "imap".data,
   "wais".data, "file".data, "https".data, "shttp".data, "mms".data,
   "prospero".data, "rtsp".data, "rtspu".data, "sftp".data, "svn".data,
   "svn+ssh".data, "ws".data, "wss".data]

/-- Schemes using a network location (`urllib.parse.uses_netloc`). -/
def usesNetloc : List (List Char) :=
  [[], "ftp".data, "http".data, "gopher".data, "nntp".data, "telnet".data,
   "imap".data, "wais".data, "file".data, "mms".data, "https".data,
   "shttp".data, "snews".data, "prospero".data, "rtsp".data, "rtspu".data,
   "rsync".data, "svn".data, "svn+ssh".data, "sftp".data, "nfs".data,
   "git".data, "git+ssh".data, "ws".data, "wss".data]

/-- Split a character list on a separator character (Python
`str.split(sep)`): always returns at least one (possibly empty) piece. -/
def splitOnChar (c : Char) : List Char → List (List Char)
  | [] => [[]]
  | x :: xs =>
    if x = c then [] :: splitOnChar c xs
    else
      match splitOnChar c xs with
      | s :: ss => (x :: s) :: ss
      | [] => [[x]]

/-- Join pieces with a separator character (Python `sep.join`). -/
def intercalateChar (c : Char) : List (List Char) → List Char
  | [] => []
  | [x] => x
  | x :: y :: xs => x ++ c :: intercalateChar c (y :: xs)

/-- `filter(None, segments[1:-1])`: drop empty segments strictly between
the first and last elements. -/
def keepLastFilter : List (List Char) → List (List Char)
  | [] => []
  | [x] => [x]
  | x :: y :: xs =>
    if x = [] then keepLastFilter (y :: xs) else x :: keepLastFilter (y :: xs)

/-- Apply `keepLastFilter` to everything after the first element. -/
def filterMiddle : List (List Char) → List (List Char)
  | [] => []
  | [x] => [x]
  | x :: y :: xs => x :: keepLastFilter (y :: xs)

/-- One step of RFC 3986 dot-segment resolution as CPython writes it:
`..` pops the accumulator, `.` is dropped, anything else is appended. -/
def resolveSegs (segs : List (List Char)) : List (List Char) :=
  segs.foldl
    (fun acc seg =>
      if seg = ['.', '.'] then acc.dropLast
      else if seg = ['.'] then acc
      else acc ++ [seg])
    []

/-- Model of `urllib.parse.urljoin` on character lists, following the
CPython implementation (minus `;`-parameter handling). -/
def urljoinL (base url : List Char) : List Char :=
  if base = [] then url
  else if url = [] then base
  else
    let b := urlsplitL base []
    let u := urlsplitL url b.scheme
    if u.scheme ≠ b.scheme ∨ ¬ usesRelative.contains u.scheme then url
    else if usesNetloc.contains u.scheme ∧ u.netloc ≠ [] then urlunsplitL u
    else
      let netloc := if usesNetloc.contains u.scheme then b.netloc else u.netloc
      if u.path = [] then
        urlunsplitL ⟨u.scheme, netloc, b.path,
          (if u.query = [] then b.query else u.query), u.fragment⟩
      else
        let baseParts0 := splitOnChar '/' b.path
        let baseParts :=
          if baseParts0.getLast? ≠ some [] then baseParts0.dropLast
          else baseParts0
        let segments :=
          if u.path.take 1 = ['/'] then splitOnChar '/' u.path
          else filterMiddle (baseParts ++ splitOnChar '/' u.path)
        let resolved := resolveSegs segments
        let resolved :=
          if segments.getLast? = some ['.'] ∨ segments.getLast? = some ['.', '.']
          then resolved ++ [[]] else resolved
        let p := intercalateChar '/' resolved
        urlunsplitL ⟨u.scheme, netloc, (if p = [] then ['/'] else p),
          u.query, u.fragment⟩

/-- `urljoin` on strings. -/
def urljoin (base url : String) : String :=
  String.mk (urljoinL base.data url.data)

/-- The full request URL built by `process_llm_response`:
`urljoin(base_url + "/", path.lstrip("/"))`. -/
def joinToolUrl (base path : String) : String :=
  urljoin (base ++ "/") (String.mk (lstripSlashL path.data))

/-! ## Call extraction (`_extract_json`) -/

/-- Result of `re.sub(r"^```[^\n]*\n", "", s)`: if the text starts with a
code fence and a newline follows it, drop everything through that first
newline. -/
def subOpenFenceL (cs : List Char) : List Char :=
  match cs with
  | '`' :: '`' :: '`' :: rest =>
    (match splitOnceChar '\n' ('`' :: '`' :: '`' :: rest) with
     | (_, some tail) => tail
     | (_, none) => cs)
  | _ => cs

/-- Result of `re.sub(r"\n```$", "", s)`: without `re.M`, `$` matches at
the end of the string or just before a final newline, so the sub removes
a trailing `"\n```"` or the `"\n```"` of a trailing `"\n```\n"`. -/
def subCloseFenceL (cs : List Char) : List Char :=
  if ['\n', '`', '`', '`'].isSuffixOf cs then cs.dropLast.dropLast.dropLast.dropLast
  else if ['\n', '`', '`', '`', '\n'].isSuffixOf cs then
    cs.dropLast.dropLast.dropLast.dropLast.dropLast ++ ['\n']
  else cs

/-- Index of the first occurrence of `c`, if any. -/
def firstIdxOf (c : Char) : List Char → Option Nat
  | [] => none
  | x :: xs =>
    if x = c then some 0
    else (firstIdxOf c xs).map (· + 1)

/-- Index of the last occurrence of `c`, if any. -/
def lastIdxOf (c : Char) (cs : List Char) : Option Nat :=
  (firstIdxOf c cs.reverse).map (fun i => cs.length - 1 - i)

/-- Result of `re.search(r"\{.*\}", s, re.S)`: with a greedy dot-all `.*`
this is the substring from the first `{` to the last `}` when the last
`}` lies strictly after the first `{`, and no match otherwise. -/
def extractBlockL (cs : List Char) : Option (List Char) :=
  match firstIdxOf '\x7b' cs, lastIdxOf '\x7d' cs with
  | some i, some j => if i < j then some ((cs.drop i).take (j - i + 1)) else none
  | _, _ => none

/-- Does the stripped text begin with a markdown code fence? -/
def fencedInput (raw : String) : Bool :=
  match pyStripL raw.data with
  | '`' :: '`' :: '`' :: _ => true
  | _ => false

/-- Fence stripping shared by both drivers: strip whitespace, remove the
opening fence line and the closing fence. -/
def stripFences (raw : String) : List Char :=
  subCloseFenceL (subOpenFenceL (pyStripL raw.data))

/-- `HTTPRESTDriver._extract_json`: on fenced input strip the fences and
search for the outermost brace block; otherwise return the raw text
unchanged. -/
def extractJsonA (raw : String) : Option String :=
  if fencedInput raw then (extractBlockL (stripFences raw)).map String.mk
  else some raw

/-- `RestHttpDriver._extract_json`: strip fences when present, then always
search for the outermost brace block. -/
def extractJsonB (raw : String) : Option String :=
  (extractBlockL (if fencedInput raw then stripFences raw else raw.data)).map
    String.mk

/-! ## The drivers' request dispatch -/

/-- Python exceptions surfacing from the dispatch path: `HTTPError` raised
by `raise_for_status` (carrying status and body), and attribute/type
errors from calling methods on values of the wrong type. -/
inductive PyError where
  | httpStatus (status : Nat) (body : String)
  | typeError
deriving Repr, DecidableEq

/-- One outbound HTTP request as handed to `requests.request`. -/
structure Request where
  method : String
  url : String
  params : Option Json
  jsonBody : Option Json
  headers : List (String × Json)

/-- An HTTP response (status plus body text). -/
structure Response where
  status : Nat
  text : String
deriving Repr, DecidableEq

/-- The HTTP transport: the environment maps each request to a response. -/
def Http : Type := Request → Response

/-- Driver configuration fixed at construction: candidate spec URLs and
the default headers (after any Basic-Auth injection). -/
structure Cfg where
  urls : List String
  defaultHeaders : List (String × Json)

/-- `{**self.default_headers, **headers}`: default-header keys keep their
position and are overridden on collision, new keys are appended. -/
def mergedHeaders (defaults upd : List (String × Json)) : List (String × Json) :=
  defaults.map (fun p => (p.1, (alookup upd p.1).getD p.2)) ++
    upd.filter (fun p => (alookup defaults p.1).isNone)

/-- `_do_request`: merge headers, perform the request, and
`raise_for_status` (an exception for any 4xx/5xx status), returning the
raw body text otherwise.  A non-mapping `headers` value fails the
`{**...}` unpacking. -/
def doRequest (cfg : Cfg) (http : Http) (method url : String)
    (params jsonBody : Option Json) (headersJ : Json) : Except PyError String :=
  match headersJ with
  | .obj hs =>
    let resp := http ⟨pyUpper method, url, params, jsonBody,
                      mergedHeaders cfg.defaultHeaders hs⟩
    if 400 ≤ resp.status ∧ resp.status < 600 then
      .error (.httpStatus resp.status resp.text)
    else .ok resp.text
  | _ => .error .typeError

/-- Value-level `_reduce_spec` on one `responses` member: a dict keeps
only the codes starting with `2` or `3`; a non-dict raises once a
non-2xx/3xx entry forces `responses.pop`, and `list(responses)` of a
non-iterable raises immediately. -/
def reduceResponses (v : Json) : Except PyError Json :=
  match v with
  | .obj rs => .ok (.obj (rs.filter (fun p =>
      p.1.startsWith "2" ∨ p.1.startsWith "3")))
  | .arr xs => if xs.isEmpty then .ok v else .error .typeError
  | .str s =>
    if s.data.all (fun c => c = '2' ∨ c = '3') then .ok v
    else .error .typeError
  | _ => .error .typeError

/-- Value-level `_reduce_spec` on one operation: non-dict operations are
skipped; in a dict operation the `responses` member (defaulting to `{}`)
is pruned. -/
def reduceOp (op : Json) : Except PyError Json :=
  match op with
  | .obj okvs =>
    (match alookup okvs "responses" with
     | none => .ok op
     | some rv =>
       (reduceResponses rv).map (fun rv' => .obj (objInsert okvs "responses" rv')))
  | _ => .ok op

/-- Apply a fallible reduction to every value of an association list, in
order, stopping at the first failure (the shape of both `for` loops in
`_reduce_spec`). -/
def reduceItems (f : Json → Except PyError Json) :
    List (String × Json) → Except PyError (List (String × Json))
  | [] => .ok []
  | (k, v) :: rest =>
    match f v with
    | .error e => .error e
    | .ok v' =>
      match reduceItems f rest with
      | .error e => .error e
      | .ok rest' => .ok ((k, v') :: rest')

/-- Value-level `_reduce_spec` on one path item: `path_item.values()`
requires a dict; every contained operation is pruned. -/
def reducePathItem (pi : Json) : Except PyError Json :=
  match pi with
  | .obj pkvs => (reduceItems reduceOp pkvs).map .obj
  | _ => .error .typeError

/-- Value-level `_reduce_spec`: `spec.pop("components", None)` requires a
dict at top level; then every path item of `paths` (defaulting to `{}`,
and required to be a dict by `.values()`) is pruned in place. -/
def reduceSpecJson (spec : Json) : Except PyError Json :=
  match spec with
  | .obj kvs =>
    let kvs1 := objErase kvs "components"
    (match alookup kvs1 "paths" with
     | none => .ok (.obj kvs1)
     | some pv =>
       match pv with
       | .obj pathKvs =>
         (reduceItems reducePathItem pathKvs).map
           (fun pathKvs' => .obj (objInsert kvs1 "paths" (.obj pathKvs')))
       | _ => .error .typeError)
  | _ => .error .typeError

/-- `_reduce_spec` on the spec text: input that fails to parse is returned
unchanged; otherwise the parsed value is mutated and re-serialized. -/
def reduceSpec (specText : String) : Except PyError String :=
  match loads specText with
  | none => .ok specText
  | some spec => (reduceSpecJson spec).map dumpsJ

/-- The try-block of base-URL resolution:
`json.loads(self.get_function_description()).get("servers", [{}])[0].get("url")`
with every exception mapped to `None`. -/
def candidateOf (fetch : Except PyError String) : Option Json :=
  match fetch with
  | .error _ => none
  | .ok txt =>
    match loads txt with
    | none => none
    | some j =>
      match j with
      | .obj kvs =>
        (match getDefault kvs "servers" (.arr [.obj []]) with
         | .arr (e :: _) =>
           (match e with
            | .obj ekvs => alookup ekvs "url"
            | _ => none)
         | _ => none)
      | _ => none

/-- The fallback branch of base-URL resolution:
`f"{parsed.scheme}://{parsed.netloc}"` of the first configured spec URL,
with `urls[0]` failing on an empty list. -/
def resolveFallback : List String → Except PyError String
  | [] => .error .typeError
  | u :: _ =>
    let parts := urlsplitL u.data []
    .ok (pyRstripSlash (String.mk (parts.scheme ++ ':' :: '/' :: '/' :: parts.netloc)))

/-- Base-URL resolution on a cache miss: a truthy `servers[0].url` wins,
otherwise `scheme://netloc` of the first configured spec URL; the result
is stored with trailing slashes stripped.  A truthy non-string candidate
fails at `.rstrip`. -/
def resolveBaseFresh (fetch : Except PyError String) (urls : List String) :
    Except PyError String :=
  match candidateOf fetch with
  | some v =>
    if pyTruthy v then
      match v with
      | .str u => .ok (pyRstripSlash u)
      | _ => .error .typeError
    else resolveFallback urls
  | none => resolveFallback urls

/-- The memo check `if not hasattr(self, "_base_url")`. -/
def resolveBaseOpt (st : Option String) (fetch : Except PyError String)
    (urls : List String) : Except PyError String :=
  match st with
  | some b => .ok b
  | none => resolveBaseFresh fetch urls

/-- `call.get("arguments", {}) or {}` (and the same for `"headers"`). -/
def callField (kvs : List (String × Json)) (k : String) : Json :=
  let v := getDefault kvs k (.obj [])
  if pyTruthy v then v else .obj []

/-- `call.get("method", "GET").upper()`: a non-string method value has no
`.upper` and raises. -/
def callMethod (kvs : List (String × Json)) : Except PyError String :=
  match getDefault kvs "method" (.str "GET") with
  | .str m => .ok (pyUpper m)
  | _ => .error .typeError

/-- The dispatch tail shared by both drivers once a structured call with a
string path is at hand: join the URL and execute GET with query
parameters or POST with a JSON body. -/
def execCall (cfg : Cfg) (http : Http) (base : String) (method p : String)
    (args headersJ : Json) : Except PyError String :=
  if method = "GET" then
    doRequest cfg http "GET" (joinToolUrl base p) (some args) none headersJ
  else
    doRequest cfg http "POST" (joinToolUrl base p) none (some args) headersJ

/-- `HTTPRESTDriver.process_llm_response` after a dict call was parsed:
the `path` membership test comes first, then method/arguments/headers
extraction, base resolution, and the request. -/
def runCallA (cfg : Cfg) (http : Http) (fetch : Except PyError String)
    (st : Option String) (input : String) (kvs : List (String × Json)) :
    Option String × Except PyError String :=
  match alookup kvs "path" with
  | none => (st, .ok input)
  | some pv =>
    match callMethod kvs with
    | .error e => (st, .error e)
    | .ok method =>
      match resolveBaseOpt st fetch cfg.urls with
      | .error e => (st, .error e)
      | .ok base =>
        match pv with
        | .str p =>
          (some base, execCall cfg http base method p (callField kvs "arguments")
            (callField kvs "headers"))
        | _ => (some base, .error .typeError)

/-- `RestHttpDriver.process_llm_response` after a dict call was parsed:
method/arguments/headers are extracted *before* the `if not path` test,
so a non-string `method` raises even when `path` is absent. -/
def runCallB (cfg : Cfg) (http : Http) (fetch : Except PyError String)
    (st : Option String) (input : String) (kvs : List (String × Json)) :
    Option String × Except PyError String :=
  let pathV := alookup kvs "path"
  match callMethod kvs with
  | .error e => (st, .error e)
  | .ok method =>
    if ¬ pyTruthyO pathV then (st, .ok input)
    else
      match resolveBaseOpt st fetch cfg.urls with
      | .error e => (st, .error e)
      | .ok base =>
        match pathV with
        | some (.str p) =>
          (some base, execCall cfg http base method p (callField kvs "arguments")
            (callField kvs "headers"))
        | _ => (some base, .error .typeError)

/-- `HTTPRESTDriver.process_llm_response`: extract, parse (decode errors
return the input), check for a dict with a `path` key, then dispatch.
The pair is (new memo state, outcome). -/
def processA (cfg : Cfg) (http : Http) (fetch : Except PyError String)
    (st : Option String) (input : String) :
    Option String × Except PyError String :=
  match extractJsonA input with
  | none => (st, .ok input)
  | some block =>
    if block = "" then (st, .ok input)
    else
      match loads block with
      | none => (st, .ok input)
      | some (.obj kvs) => runCallA cfg http fetch st input kvs
      | some _ => (st, .ok input)

/-- `RestHttpDriver.process_llm_response`: same shape, but a parsed
non-dict would fail at `call.get` (unreachable, since extracted blocks
start with `{`), and the dispatch tail is `runCallB`. -/
def processB (cfg : Cfg) (http : Http) (fetch : Except PyError String)
    (st : Option String) (input : String) :
    Option String × Except PyError String :=
  match extractJsonB input with
  | none => (st, .ok input)
  | some block =>
    if block = "" then (st, .ok input)
    else
      match loads block with
      | none => (st, .ok input)
      | some (.obj kvs) => runCallB cfg http fetch st input kvs
      | some _ => (st, .error .typeError)

/-- Modelled from the behaviour of the `requests` library (not part of
this repository): how a GET request's query parameters render into the
final URL, without percent-encoding (none of the checked inputs need
it).  Numbers and strings render as Python `str()` does. -/
def paramStr : Json → String
  | .str s => s
  | .num raw => raw
  | .bool true => "True"
  | .bool false => "False"
  | .null => "None"
  | _ => ""

/-- The URL a GET request is issued to, with its query string appended. -/
def renderUrl (r : Request) : String :=
  match r.params with
  | some (.obj kvs) =>
    if kvs.isEmpty then r.url
    else r.url ++ "?" ++
      String.intercalate "&" (kvs.map (fun p => p.1 ++ "=" ++ paramStr p.2))
  | _ => r.url

/-! ## Predicates used to state the claims -/

/-- The spec's "not a structured call" condition for a given extraction
helper: nothing extracted (or an empty block), a JSON decode failure, or
a parsed candidate that is no dict or lacks a `path` key. -/
def notAStructuredCall (extract : String → Option String) (input : String) :
    Bool :=
  match extract input with
  | none => true
  | some block =>
    if block = "" then true
    else
      match loads block with
      | none => true
      | some (.obj kvs) => (alookup kvs "path").isNone
      | some _ => true

/-- Any `method` member of the candidate extracted by driver B is a
string (so `call.get("method", "GET").upper()` cannot raise). -/
def methodStrOk (input : String) : Bool :=
  match extractJsonB input with
  | none => true
  | some block =>
    match loads block with
    | some (.obj kvs) =>
      (match alookup kvs "method" with
       | none => true
       | some (.str _) => true
       | some _ => false)
    | _ => true

/-- A structured call reaching the dispatch tail: the extraction helper
found `block`, it decodes to a dict whose `path` is the non-empty string
`p`, and the method field upper-cases to `m`. -/
structure GoodCall (extract : String → Option String) (input block : String)
    (kvs : List (String × Json)) (p m : String) : Prop where
  extract_eq : extract input = some block
  block_ne : block ≠ ""
  load_eq : loads block = some (.obj kvs)
  path_eq : alookup kvs "path" = some (.str p)
  path_ne : p ≠ ""
  method_eq : callMethod kvs = .ok m

/-- Pairwise-distinct keys (automatic for anything `json.loads`
produces). -/
def keysNodupB : List (String × Json) → Bool
  | [] => true
  | (k, _) :: rest => (alookup rest k).isNone && keysNodupB rest

/-- An operation whose `responses` member, when present, is a dict. -/
def respObjOk (op : Json) : Bool :=
  match op with
  | .obj okvs =>
    (match alookup okvs "responses" with
     | none => true
     | some (.obj _) => true
     | some _ => false)
  | _ => true

/-- A path item that is a dict of operations passing `respObjOk`. -/
def pathItemOk (pi : Json) : Bool :=
  match pi with
  | .obj pkvs => pkvs.all (fun p => respObjOk p.2)
  | _ => false

/-- A specification document `_reduce_spec` can process without raising:
a JSON object (with the duplicate-free keys `json.loads` guarantees)
whose `paths` member, when present, is a dict of dicts with dict-valued
`responses`. -/
def specReducible (j : Json) : Bool :=
  match j with
  | .obj kvs =>
    keysNodupB kvs &&
      (match alookup kvs "paths" with
       | none => true
       | some (.obj pkvs) => pkvs.all (fun p => pathItemOk p.2)
       | some _ => false)
  | _ => false

/-- Every response code remaining in every operation of every path starts
with `2` or `3`. -/
def respCodesOk (j : Json) : Prop :=
  ∀ kvs, j = .obj kvs →
  ∀ pathsKvs, alookup kvs "paths" = some (.obj pathsKvs) →
  ∀ pk piJ, (pk, piJ) ∈ pathsKvs →
  ∀ piKvs, piJ = .obj piKvs →
  ∀ mk opJ, (mk, opJ) ∈ piKvs →
  ∀ opKvs, opJ = .obj opKvs →
  ∀ rsJ, alookup opKvs "responses" = some rsJ →
  ∀ rsKvs, rsJ = .obj rsKvs →
  ∀ c v, (c, v) ∈ rsKvs →
  (c.startsWith "2" ∨ c.startsWith "3")

/-- Remove every binding of a key (a dict simply without that key). -/
def objEraseAll (kvs : List (String × Json)) (k : String) :
    List (String × Json) :=
  kvs.filter (fun p => p.1 ≠ k)

/-- A printable character legal inside a host (network location ends only
at `/`, `?`, `#`). -/
def hostChar (c : Char) : Bool :=
  32 < c.toNat ∧ c ≠ '/' ∧ c ≠ '?' ∧ c ≠ '#'

/-- A printable character legal inside a plain path segment (additionally
no `:`, so the segment cannot be mistaken for a scheme). -/
def segChar (c : Char) : Bool :=
  32 < c.toNat ∧ c ≠ '/' ∧ c ≠ '?' ∧ c ≠ '#' ∧ c ≠ ':'

/-- A plain path segment: non-empty, not a dot segment, made of
`segChar`s. -/
def plainSeg (s : List Char) : Bool :=
  ¬ s.isEmpty ∧ s ≠ ['.'] ∧ s ≠ ['.', '.'] ∧ s.all segChar

/-- The path part of a base URL built from slash-prefixed segments. -/
def bpathOf (bsegs : List (List Char)) : List Char :=
  (bsegs.map (fun s => '/' :: s)).flatten

/-- A base URL `scheme://host/seg1/.../segk` as a character list. -/
def baseOfParts (scheme host : List Char) (bsegs : List (List Char)) :
    List Char :=
  scheme ++ (':' :: ('/' :: ('/' :: (host ++ bpathOf bsegs))))

/-! ## Theorems -/

theorem runCallA_fst (cfg : Cfg) (http : Http) (f : Except PyError String)
    (b input : String) (kvs : List (String × Json)) :
    (runCallA cfg http f (some b) input kvs).1 = some b := by
  unfold runCallA
  cases hp : alookup kvs "path" with
  | none => rfl
  | some pv =>
    cases hm : callMethod kvs with
    | error e => rfl
    | ok m => cases pv <;> rfl

theorem runCallB_fst (cfg : Cfg) (http : Http) (f : Except PyError String)
    (b input : String) (kvs : List (String × Json)) :
    (runCallB cfg http f (some b) input kvs).1 = some b := by
  unfold runCallB
  cases hm : callMethod kvs with
  | error e => rfl
  | ok m =>
    cases hp : alookup kvs "path" with
    | none => rfl
    | some pv =>
      by_cases ht : pyTruthyO (some pv)
      · simp only [ht]
        cases pv <;> rfl
      · simp only [ht]
        rfl

theorem processA_fst (cfg : Cfg) (http : Http) (f : Except PyError String)
    (b input : String) :
    (processA cfg http f (some b) input).1 = some b := by
  cases hex : extractJsonA input with
  | none => simp [processA, hex]
  | some block =>
    by_cases hb : block = ""
    · simp [processA, hex, hb]
    · cases hl : loads block with
      | none => simp [processA, hex, hb, hl]
      | some j =>
        cases j with
        | obj kvs =>
          simp only [processA, hex, hb, if_neg hb, hl]
          exact runCallA_fst cfg http f b input kvs
        | null => simp [processA, hex, hb, hl]
        | bool v => simp [processA, hex, hb, hl]
        | num raw => simp [processA, hex, hb, hl]
        | str s => simp [processA, hex, hb, hl]
        | arr xs => simp [processA, hex, hb, hl]

theorem processB_fst (cfg : Cfg) (http : Http) (f : Except PyError String)
    (b input : String) :
    (processB cfg http f (some b) input).1 = some b := by
  cases hex : extractJsonB input with
  | none => simp [processB, hex]
  | some block =>
    by_cases hb : block = ""
    · simp [processB, hex, hb]
    · cases hl : loads block with
      | none => simp [processB, hex, hb, hl]
      | some j =>
        cases j with
        | obj kvs =>
          simp only [processB, hex, hb, if_neg hb, hl]
          exact runCallB_fst cfg http f b input kvs
        | null => simp [processB, hex, hb, hl]
        | bool v => simp [processB, hex, hb, hl]
        | num raw => simp [processB, hex, hb, hl]
        | str s => simp [processB, hex, hb, hl]
        | arr xs => simp [processB, hex, hb, hl]

/-- Claim C4: once the base URL is memoized, a `process_llm_response` call
on either driver leaves the memo unchanged and its behaviour does not
depend on the specification fetch at all (the underlying spec may change
with no effect); the resolved state is never left. -/
theorem claim_C4_base_url_memoized_one_way :
    ∀ (cfg : Cfg) (http : Http) (f1 f2 : Except PyError String) (b input : String),
      processA cfg http f1 (some b) input = processA cfg http f2 (some b) input ∧
      (processA cfg http f1 (some b) input).1 = some b ∧
      processB cfg http f1 (some b) input = processB cfg http f2 (some b) input ∧
      (processB cfg http f1 (some b) input).1 = some b :=
  fun cfg http f1 f2 b input =>
    ⟨rfl, processA_fst cfg http f1 b input, rfl, processB_fst cfg http f1 b input⟩

/-- Claim C9 (amended): the two `_extract_json` helpers agree on every
fenced input (both strip the fences and return the greedy brace block),
but on unfenced input driver A returns the whole text while driver B
returns the brace block, so they are not extensionally equal. -/
theorem claim_C9_extraction_agreement_on_fenced_input :
    (∀ s, fencedInput s = true → extractJsonA s = extractJsonB s) ∧
    (∀ s, fencedInput s = false →
      extractJsonA s = some s ∧
      extractJsonB s = (extractBlockL s.data).map String.mk) := by
  constructor
  · intro s h
    unfold extractJsonA extractJsonB
    rw [h]
    simp
  · intro s h
    unfold extractJsonA extractJsonB
    rw [h]
    simp

/-- Claim C9, counterexample: on unfenced prose with an embedded JSON
object the two extraction helpers disagree, refuting extensional
equality. -/
theorem claim_C9_counterexample :
    extractJsonA "see \x7b\"path\": \"/x\"\x7d thanks" ≠
      extractJsonB "see \x7b\"path\": \"/x\"\x7d thanks" := by
  decide

theorem firstIdxOf_drop (c : Char) :
    ∀ (cs : List Char) (i : Nat), firstIdxOf c cs = some i →
      cs.drop i = c :: cs.drop (i + 1) := by
  intro cs
  induction cs with
  | nil => intro i h; simp [firstIdxOf] at h
  | cons x xs ih =>
    intro i h
    unfold firstIdxOf at h
    by_cases hx : x = c
    · rw [if_pos hx] at h
      cases h
      simp [hx]
    · rw [if_neg hx] at h
      cases hfi : firstIdxOf c xs with
      | none => rw [hfi] at h; simp at h
      | some i' =>
        rw [hfi] at h
        simp at h
        subst h
        simpa using ih i' hfi

theorem extractBlockL_take_one (cs bs : List Char)
    (h : extractBlockL cs = some bs) : bs.take 1 = ['\x7b'] := by
  unfold extractBlockL at h
  cases hf : firstIdxOf '\x7b' cs with
  | none => rw [hf] at h; simp at h
  | some i =>
    cases hl : lastIdxOf '\x7d' cs with
    | none => rw [hf, hl] at h; simp at h
    | some j =>
      rw [hf, hl] at h
      have h' : (if i < j then some ((cs.drop i).take (j - i + 1)) else none) =
          some bs := h
      by_cases hij : i < j
      · rw [if_pos hij] at h'
        have hdrop := firstIdxOf_drop '\x7b' cs i hf
        simp only [Option.some_inj] at h'
        subst h'
        rw [hdrop]
        rw [List.take_succ_cons]
        simp
      · rw [if_neg hij] at h'; simp at h'

theorem parseObjItems_obj :
    ∀ (f : Nat) (cs : List Char) (acc : List (String × Json))
      (j : Json) (rest : List Char),
      parseObjItems f cs acc = some (j, rest) → ∃ kvs, j = Json.obj kvs := by
  intro f
  induction f with
  | zero => intro cs acc j rest h; simp [parseObjItems] at h
  | succ f ih =>
    intro cs acc j rest h
    unfold parseObjItems at h
    split at h
    · split at h
      · simp at h
      · split at h
        · split at h
          · simp at h
          · split at h
            · exact ih _ _ _ _ h
            · simp only [Option.some_inj, Prod.mk.injEq] at h
              exact ⟨_, h.1.symm⟩
            · simp at h
        · simp at h
    · simp at h

theorem loads_brace_obj (block : String) (j : Json)
    (hhead : block.data.take 1 = ['\x7b'])
    (hl : loads block = some j) : ∃ kvs, j = Json.obj kvs := by
  obtain ⟨t, ht⟩ : ∃ t, block.data = '\x7b' :: t := by
    cases hbd : block.data with
    | nil => rw [hbd] at hhead; simp at hhead
    | cons x xs =>
      rw [hbd] at hhead
      simp at hhead
      exact ⟨xs, by rw [hhead]⟩
  unfold loads at hl
  rw [ht] at hl
  have hws : jsonSkipWs ('\x7b' :: t) = '\x7b' :: t := by
    simp [jsonSkipWs, List.dropWhile, isJsonWs]
  rw [hws] at hl
  obtain ⟨f, hf⟩ : ∃ f, 2 * (('\x7b' :: t).length) + 2 = f + 1 := ⟨_, rfl⟩
  rw [hf] at hl
  cases hpv : parseVal (f + 1) ('\x7b' :: t) with
  | none => rw [hpv] at hl; simp at hl
  | some pr =>
    rw [hpv] at hl
    obtain ⟨v, rest⟩ := pr
    have hobj : ∃ kvs, v = Json.obj kvs := by
      simp only [parseVal] at hpv
      split at hpv
      · simp only [Option.some_inj, Prod.mk.injEq] at hpv
        exact ⟨[], hpv.1.symm⟩
      · exact parseObjItems_obj _ _ _ _ _ hpv
    have hl' : (if jsonSkipWs rest = [] then some v else none) = some j := hl
    by_cases hw : jsonSkipWs rest = []
    · rw [if_pos hw] at hl'
      simp only [Option.some_inj] at hl'
      exact hl' ▸ hobj
    · rw [if_neg hw] at hl'
      simp at hl'

theorem extractJsonB_loads_obj (input block : String) (j : Json)
    (hex : extractJsonB input = some block)
    (hl : loads block = some j) : ∃ kvs, j = Json.obj kvs := by
  unfold extractJsonB at hex
  cases hb : extractBlockL (if fencedInput input then stripFences input
      else input.data) with
  | none => rw [hb] at hex; simp at hex
  | some bs =>
    rw [hb] at hex
    have hmk : String.mk bs = block := by simpa using hex
    have htake := extractBlockL_take_one _ _ hb
    apply loads_brace_obj block j _ hl
    rw [← hmk]
    simpa using htake

/-- Claim C9, witness for the amended theorem: a fenced input on which the
two helpers agree, and an unfenced input exhibiting their respective
behaviours. -/
theorem claim_C9_witness :
    fencedInput "```json\n\x7b\"a\": 1\x7d\n```" = true ∧
    extractJsonA "```json\n\x7b\"a\": 1\x7d\n```" =
      extractJsonB "```json\n\x7b\"a\": 1\x7d\n```" ∧
    fencedInput "plain prose" = false ∧
    extractJsonA "plain prose" = some "plain prose" ∧
    extractJsonB "plain prose" =
      (extractBlockL "plain prose".data).map String.mk :=
  ⟨by decide,
   claim_C9_extraction_agreement_on_fenced_input.1 "```json\n\x7b\"a\": 1\x7d\n```"
     (by decide),
   by decide,
   (claim_C9_extraction_agreement_on_fenced_input.2 "plain prose" (by decide)).1,
   (claim_C9_extraction_agreement_on_fenced_input.2 "plain prose" (by decide)).2⟩

/-- Claim C2 (amended): on any input yielding no structured call (nothing
extracted, a decode failure, or a candidate without a `path` key) driver
A returns the input unchanged and raises nothing, and driver B does
likewise provided any `method` member of the candidate is a string — a
non-string `method` on a path-less candidate makes driver B raise. -/
theorem claim_C2_no_structured_call_returns_input :
    (∀ (cfg : Cfg) (http : Http) (fetch : Except PyError String)
        (st : Option String) (input : String),
      notAStructuredCall extractJsonA input = true →
      processA cfg http fetch st input = (st, .ok input)) ∧
    (∀ (cfg : Cfg) (http : Http) (fetch : Except PyError String)
        (st : Option String) (input : String),
      notAStructuredCall extractJsonB input = true →
      methodStrOk input = true →
      processB cfg http fetch st input = (st, .ok input)) := by
  constructor
  · intro cfg http fetch st input h
    cases hex : extractJsonA input with
    | none => simp [processA, hex]
    | some block =>
      simp only [notAStructuredCall, hex] at h
      by_cases hb : block = ""
      · simp [processA, hex, hb]
      · rw [if_neg hb] at h
        cases hl : loads block with
        | none => simp [processA, hex, hb, hl]
        | some j =>
          simp only [hl] at h
          cases j with
          | obj kvs =>
            cases hp : alookup kvs "path" with
            | none => simp [processA, runCallA, hex, hb, hl, hp]
            | some v => simp [hp] at h
          | null => simp [processA, hex, hb, hl]
          | bool v => simp [processA, hex, hb, hl]
          | num raw => simp [processA, hex, hb, hl]
          | str s => simp [processA, hex, hb, hl]
          | arr xs => simp [processA, hex, hb, hl]
  · intro cfg http fetch st input h hm
    cases hex : extractJsonB input with
    | none => simp [processB, hex]
    | some block =>
      simp only [notAStructuredCall, hex] at h
      simp only [methodStrOk, hex] at hm
      by_cases hb : block = ""
      · simp [processB, hex, hb]
      · rw [if_neg hb] at h
        cases hl : loads block with
        | none => simp [processB, hex, hb, hl]
        | some j =>
          simp only [hl] at h
          simp only [hl] at hm
          cases j with
          | obj kvs =>
            cases hp : alookup kvs "path" with
            | none =>
              cases hmm : alookup kvs "method" with
              | none =>
                simp [processB, runCallB, hex, hb, hl, hp, callMethod,
                  getDefault, hmm, pyTruthyO]
              | some mv =>
                simp only [hmm] at hm
                cases mv with
                | str ms =>
                  simp [processB, runCallB, hex, hb, hl, hp, callMethod,
                    getDefault, hmm, pyTruthyO]
                | null => simp at hm
                | bool v => simp at hm
                | num raw => simp at hm
                | arr xs => simp at hm
                | obj o => simp at hm
            | some v => simp [hp] at h
          | null =>
            obtain ⟨kvs, hk⟩ := extractJsonB_loads_obj _ _ _ hex hl
            simp at hk
          | bool v =>
            obtain ⟨kvs, hk⟩ := extractJsonB_loads_obj _ _ _ hex hl
            simp at hk
          | num raw =>
            obtain ⟨kvs, hk⟩ := extractJsonB_loads_obj _ _ _ hex hl
            simp at hk
          | str s =>
            obtain ⟨kvs, hk⟩ := extractJsonB_loads_obj _ _ _ hex hl
            simp at hk
          | arr xs =>
            obtain ⟨kvs, hk⟩ := extractJsonB_loads_obj _ _ _ hex hl
            simp at hk

/-- Claim C2, counterexample: on `{"method": 42}` — a candidate lacking
`path` — driver B raises (the integer has no `.upper`) instead of
returning the input unchanged. -/
theorem claim_C2_counterexample :
    notAStructuredCall extractJsonB "\x7b\"method\": 42\x7d" = true ∧
    (processB ⟨[], []⟩ (fun _ => ⟨200, ""⟩) (.ok "") none
        "\x7b\"method\": 42\x7d").2 = .error .typeError := by
  constructor
  · decide
  · rfl

/-- Claim C2, witness for the amended theorem at plain conversational
text. -/
theorem claim_C2_witness :
    notAStructuredCall extractJsonA "It is a nice day." = true ∧
    notAStructuredCall extractJsonB "It is a nice day." = true ∧
    methodStrOk "It is a nice day." = true ∧
    processA ⟨[], []⟩ (fun _ => ⟨200, ""⟩) (.ok "") none "It is a nice day." =
      (none, .ok "It is a nice day.") ∧
    processB ⟨[], []⟩ (fun _ => ⟨200, ""⟩) (.ok "") none "It is a nice day." =
      (none, .ok "It is a nice day.") :=
  ⟨by decide, by decide, by decide,
   claim_C2_no_structured_call_returns_input.1 ⟨[], []⟩ (fun _ => ⟨200, ""⟩)
     (.ok "") none "It is a nice day." (by decide),
   claim_C2_no_structured_call_returns_input.2 ⟨[], []⟩ (fun _ => ⟨200, ""⟩)
     (.ok "") none "It is a nice day." (by decide) (by decide)⟩

theorem alookup_map_override (hs : List (String × Json)) :
    ∀ (ds t : List (String × Json)) (k : String),
      alookup (ds.map (fun p => (p.1, (alookup hs p.1).getD p.2)) ++ t) k =
        (match alookup ds k with
         | some v => some ((alookup hs k).getD v)
         | none => alookup t k) := by
  intro ds
  induction ds with
  | nil => intro t k; rfl
  | cons d ds ih =>
    intro t k
    obtain ⟨k', v'⟩ := d
    by_cases hk : k' = k
    · subst hk
      simp [alookup]
    · simp [alookup, hk, ih]

theorem alookup_filter_self (ds : List (String × Json)) (k : String)
    (hk : alookup ds k = none) :
    ∀ (hs : List (String × Json)),
      alookup (hs.filter (fun p => (alookup ds p.1).isNone)) k = alookup hs k := by
  intro hs
  induction hs with
  | nil => rfl
  | cons h0 hs ih =>
    obtain ⟨k0, v0⟩ := h0
    by_cases hk0 : k0 = k
    · subst hk0
      simp [List.filter_cons, hk, alookup]
    · by_cases hpred : (alookup ds k0).isNone
      · simp [List.filter_cons, hpred, alookup, hk0, ih]
      · simp [List.filter_cons, hpred, alookup, hk0, ih]

theorem mergedHeaders_upd_wins (defaults hs : List (String × Json))
    (k : String) (v : Json) (h : alookup hs k = some v) :
    alookup (mergedHeaders defaults hs) k = some v := by
  unfold mergedHeaders
  rw [alookup_map_override hs defaults _ k]
  cases hd : alookup defaults k with
  | some dv => simp [h]
  | none => rw [alookup_filter_self defaults k hd hs]; exact h

theorem mergedHeaders_default_kept (defaults hs : List (String × Json))
    (k : String) (v : Json) (hnone : alookup hs k = none)
    (h : alookup defaults k = some v) :
    alookup (mergedHeaders defaults hs) k = some v := by
  unfold mergedHeaders
  rw [alookup_map_override hs defaults _ k, h]
  simp [hnone]

theorem runCallA_good (cfg : Cfg) (http : Http) (fetch : Except PyError String)
    (base input : String) (kvs : List (String × Json)) (p m : String)
    (hpath : alookup kvs "path" = some (.str p))
    (hm : callMethod kvs = .ok m) :
    runCallA cfg http fetch (some base) input kvs =
      (some base, execCall cfg http base m p (callField kvs "arguments")
        (callField kvs "headers")) := by
  simp [runCallA, hpath, hm, resolveBaseOpt]

theorem runCallB_good (cfg : Cfg) (http : Http) (fetch : Except PyError String)
    (base input : String) (kvs : List (String × Json)) (p m : String)
    (hpath : alookup kvs "path" = some (.str p)) (hpn : p ≠ "")
    (hm : callMethod kvs = .ok m) :
    runCallB cfg http fetch (some base) input kvs =
      (some base, execCall cfg http base m p (callField kvs "arguments")
        (callField kvs "headers")) := by
  simp [runCallB, hpath, hm, resolveBaseOpt, pyTruthyO, pyTruthy, hpn]

theorem processA_good (cfg : Cfg) (http : Http) (fetch : Except PyError String)
    (base input block : String) (kvs : List (String × Json)) (p m : String)
    (h : GoodCall extractJsonA input block kvs p m) :
    processA cfg http fetch (some base) input =
      (some base, execCall cfg http base m p (callField kvs "arguments")
        (callField kvs "headers")) := by
  obtain ⟨hex, hb, hl, hp, hpn, hm⟩ := h
  simp only [processA, hex, hb, if_neg hb, hl]
  exact runCallA_good cfg http fetch base input kvs p m hp hm

theorem processB_good (cfg : Cfg) (http : Http) (fetch : Except PyError String)
    (base input block : String) (kvs : List (String × Json)) (p m : String)
    (h : GoodCall extractJsonB input block kvs p m) :
    processB cfg http fetch (some base) input =
      (some base, execCall cfg http base m p (callField kvs "arguments")
        (callField kvs "headers")) := by
  obtain ⟨hex, hb, hl, hp, hpn, hm⟩ := h
  simp only [processB, hex, hb, if_neg hb, hl]
  exact runCallB_good cfg http fetch base input kvs p m hp hpn hm

/-- Claim C8: the headers sent by `_do_request` are the configured default
headers merged with the call-specific headers — call-specific values win
on key collision, default keys absent from the call keep their configured
value — and the single request executed carries exactly that merge. -/
theorem claim_C8_header_merge :
    ∀ (cfg : Cfg) (http : Http) (method url : String)
      (params jsonBody : Option Json) (hs : List (String × Json))
      (k : String) (v : Json),
      (alookup hs k = some v →
        alookup (mergedHeaders cfg.defaultHeaders hs) k = some v) ∧
      (alookup hs k = none → alookup cfg.defaultHeaders k = some v →
        alookup (mergedHeaders cfg.defaultHeaders hs) k = some v) ∧
      (∀ resp : Response,
        http ⟨pyUpper method, url, params, jsonBody,
          mergedHeaders cfg.defaultHeaders hs⟩ = resp →
        ¬ (400 ≤ resp.status ∧ resp.status < 600) →
        doRequest cfg http method url params jsonBody (.obj hs) = .ok resp.text) := by
  intro cfg http method url params jsonBody hs k v
  refine ⟨fun h => mergedHeaders_upd_wins _ _ _ _ h,
          fun h1 h2 => mergedHeaders_default_kept _ _ _ _ h1 h2,
          fun resp hresp hstatus => ?_⟩
  simp only [doRequest, hresp]
  rw [if_neg hstatus]

/-- Claim C8, witness: with defaults `A=1, B=2` and call headers
`B=9, C=3`, the merge keeps `A=1`, overrides `B=9`, and a 200 response's
body is returned. -/
theorem claim_C8_witness :
    alookup [("B", Json.str "9"), ("C", Json.str "3")] "B" = some (.str "9") ∧
    alookup (mergedHeaders [("A", Json.str "1"), ("B", Json.str "2")]
      [("B", Json.str "9"), ("C", Json.str "3")]) "B" = some (.str "9") ∧
    alookup [("B", Json.str "9"), ("C", Json.str "3")] "A" = none ∧
    alookup [("A", Json.str "1"), ("B", Json.str "2")] "A" = some (.str "1") ∧
    alookup (mergedHeaders [("A", Json.str "1"), ("B", Json.str "2")]
      [("B", Json.str "9"), ("C", Json.str "3")]) "A" = some (.str "1") ∧
    doRequest ⟨[], [("A", Json.str "1"), ("B", Json.str "2")]⟩
      (fun _ => ⟨200, "pong"⟩) "get" "http://h/x" none none
      (.obj [("B", Json.str "9"), ("C", Json.str "3")]) = .ok "pong" :=
  ⟨rfl,
   (claim_C8_header_merge ⟨[], [("A", Json.str "1"), ("B", Json.str "2")]⟩
     (fun _ => ⟨200, "pong"⟩) "get" "http://h/x" none none
     [("B", Json.str "9"), ("C", Json.str "3")] "B" (Json.str "9")).1 rfl,
   rfl, rfl,
   ((claim_C8_header_merge ⟨[], [("A", Json.str "1"), ("B", Json.str "2")]⟩
     (fun _ => ⟨200, "pong"⟩) "get" "http://h/x" none none
     [("B", Json.str "9"), ("C", Json.str "3")] "A" (Json.str "1")).2).1 rfl rfl,
   ((claim_C8_header_merge ⟨[], [("A", Json.str "1"), ("B", Json.str "2")]⟩
     (fun _ => ⟨200, "pong"⟩) "get" "http://h/x" none none
     [("B", Json.str "9"), ("C", Json.str "3")] "A" (Json.str "1")).2).2
     ⟨200, "pong"⟩ rfl (by decide)⟩

/-- Claim C7: a 4xx/5xx response makes `_do_request` raise an HTTP status
error carrying the status and body, a 2xx/3xx response returns the raw
body text, and `process_llm_response` propagates the raised error on both
drivers rather than substituting a default value. -/
theorem claim_C7_error_status_raises :
    (∀ (cfg : Cfg) (http : Http) (method url : String)
        (params jsonBody : Option Json) (hs : List (String × Json))
        (resp : Response),
      http ⟨pyUpper method, url, params, jsonBody,
        mergedHeaders cfg.defaultHeaders hs⟩ = resp →
      (400 ≤ resp.status → resp.status < 600 →
        doRequest cfg http method url params jsonBody (.obj hs) =
          .error (.httpStatus resp.status resp.text)) ∧
      (200 ≤ resp.status → resp.status < 400 →
        doRequest cfg http method url params jsonBody (.obj hs) =
          .ok resp.text)) ∧
    (∀ (cfg : Cfg) (http : Http) (fetch : Except PyError String)
        (base input block : String) (kvs : List (String × Json)) (p : String)
        (hs : List (String × Json)) (resp : Response),
      GoodCall extractJsonA input block kvs p "GET" →
      GoodCall extractJsonB input block kvs p "GET" →
      callField kvs "headers" = .obj hs →
      http ⟨"GET", joinToolUrl base p, some (callField kvs "arguments"), none,
        mergedHeaders cfg.defaultHeaders hs⟩ = resp →
      400 ≤ resp.status → resp.status < 600 →
      processA cfg http fetch (some base) input =
        (some base, .error (.httpStatus resp.status resp.text)) ∧
      processB cfg http fetch (some base) input =
        (some base, .error (.httpStatus resp.status resp.text))) := by
  constructor
  · intro cfg http method url params jsonBody hs resp hresp
    constructor
    · intro h4 h6
      simp only [doRequest, hresp]
      exact if_pos ⟨h4, h6⟩
    · intro h2 h4
      simp only [doRequest, hresp]
      rw [if_neg (by omega)]
  · intro cfg http fetch base input block kvs p hs resp hA hB hhs hresp h4 h6
    have hexecA := processA_good cfg http fetch base input block kvs p "GET" hA
    have hexecB := processB_good cfg http fetch base input block kvs p "GET" hB
    have hexec : execCall cfg http base "GET" p (callField kvs "arguments")
        (callField kvs "headers") = .error (.httpStatus resp.status resp.text) := by
      have hup : pyUpper "GET" = "GET" := rfl
      have hc : 400 ≤ resp.status ∧ resp.status < 600 := ⟨h4, h6⟩
      simp only [execCall, if_pos rfl, hhs, doRequest, hup, hresp]
      exact if_pos hc
    rw [hexec] at hexecA hexecB
    exact ⟨hexecA, hexecB⟩

/-- Claim C7, witness: a 404 with body `detail` propagates as an HTTP
status error from both drivers, and a 200 body is returned raw. -/
theorem claim_C7_witness :
    (doRequest ⟨[], []⟩ (fun _ => ⟨404, "detail"⟩) "GET" "http://h/x" none none
      (.obj []) = .error (.httpStatus 404 "detail")) ∧
    (doRequest ⟨[], []⟩ (fun _ => ⟨200, "ok"⟩) "GET" "http://h/x" none none
      (.obj []) = .ok "ok") ∧
    (processA ⟨[], []⟩ (fun _ => ⟨404, "detail"⟩) (.ok "") (some "http://h")
      "\x7b\"path\": \"/missing\"\x7d" =
      (some "http://h", .error (.httpStatus 404 "detail"))) ∧
    (processB ⟨[], []⟩ (fun _ => ⟨404, "detail"⟩) (.ok "") (some "http://h")
      "\x7b\"path\": \"/missing\"\x7d" =
      (some "http://h", .error (.httpStatus 404 "detail"))) := by
  refine ⟨((claim_C7_error_status_raises.1 ⟨[], []⟩ (fun _ => ⟨404, "detail"⟩)
      "GET" "http://h/x" none none [] ⟨404, "detail"⟩ rfl).1 (by decide) (by decide)),
    ((claim_C7_error_status_raises.1 ⟨[], []⟩ (fun _ => ⟨200, "ok"⟩)
      "GET" "http://h/x" none none [] ⟨200, "ok"⟩ rfl).2 (by decide) (by decide)),
    ?_⟩
  have h := claim_C7_error_status_raises.2 ⟨[], []⟩ (fun _ => ⟨404, "detail"⟩)
    (.ok "") "http://h" "\x7b\"path\": \"/missing\"\x7d"
    "\x7b\"path\": \"/missing\"\x7d"
    [("path", Json.str "/missing")] "/missing" [] ⟨404, "detail"⟩
    ⟨rfl, by decide, by rfl, rfl, by decide, rfl⟩
    ⟨rfl, by decide, by rfl, rfl, by decide, rfl⟩
    rfl rfl (by decide) (by decide)
  exact h

theorem alookup_eraseAll_ne (kvs : List (String × Json)) (k k' : String)
    (h : k' ≠ k) : alookup (objEraseAll kvs k) k' = alookup kvs k' := by
  induction kvs with
  | nil => rfl
  | cons p rest ih =>
    obtain ⟨k0, v0⟩ := p
    by_cases hk0 : k0 = k
    · cases hk0
      have hne : ¬ (k = k') := fun hh => h hh.symm
      simp only [objEraseAll, decide_not] at ih ⊢
      simp [List.filter_cons, alookup, hne, ih]
    · simp only [objEraseAll, decide_not] at ih ⊢
      simp [List.filter_cons, alookup, hk0, ih]

theorem alookup_eraseAll_self (kvs : List (String × Json)) (k : String) :
    alookup (objEraseAll kvs k) k = none := by
  induction kvs with
  | nil => rfl
  | cons p rest ih =>
    obtain ⟨k0, v0⟩ := p
    by_cases hk0 : k0 = k
    · cases hk0
      simp only [objEraseAll, decide_not] at ih ⊢
      simp [List.filter_cons, ih]
    · simp only [objEraseAll, decide_not] at ih ⊢
      simp [List.filter_cons, alookup, hk0, ih]

theorem callField_ext (kvs kvs' : List (String × Json)) (k : String)
    (h : alookup kvs k = alookup kvs' k) :
    callField kvs k = callField kvs' k := by
  unfold callField getDefault
  rw [h]

theorem callMethod_ext (kvs kvs' : List (String × Json))
    (h : alookup kvs "method" = alookup kvs' "method") :
    callMethod kvs = callMethod kvs' := by
  unfold callMethod getDefault
  rw [h]

theorem runCallA_ext (cfg : Cfg) (http : Http) (fetch : Except PyError String)
    (st : Option String) (input : String) (kvs kvs' : List (String × Json))
    (h1 : alookup kvs "path" = alookup kvs' "path")
    (h2 : callMethod kvs = callMethod kvs')
    (h3 : callField kvs "arguments" = callField kvs' "arguments")
    (h4 : callField kvs "headers" = callField kvs' "headers") :
    runCallA cfg http fetch st input kvs = runCallA cfg http fetch st input kvs' := by
  unfold runCallA
  rw [h1, h2, h3, h4]

theorem runCallB_ext (cfg : Cfg) (http : Http) (fetch : Except PyError String)
    (st : Option String) (input : String) (kvs kvs' : List (String × Json))
    (h1 : alookup kvs "path" = alookup kvs' "path")
    (h2 : callMethod kvs = callMethod kvs')
    (h3 : callField kvs "arguments" = callField kvs' "arguments")
    (h4 : callField kvs "headers" = callField kvs' "headers") :
    runCallB cfg http fetch st input kvs = runCallB cfg http fetch st input kvs' := by
  unfold runCallB
  rw [h1, h2, h3, h4]

/-- Claim C10: a structured call whose `arguments` (or `headers`) member
is JSON `null` is dispatched exactly as if the key were absent — the
field collapses to an empty mapping and no error is raised on either
driver. -/
theorem claim_C10_null_fields_default_empty :
    ∀ (cfg : Cfg) (http : Http) (fetch : Except PyError String)
      (st : Option String) (input : String) (kvs : List (String × Json)),
      (alookup kvs "arguments" = some .null →
        callField kvs "arguments" = .obj [] ∧
        runCallA cfg http fetch st input kvs =
          runCallA cfg http fetch st input (objEraseAll kvs "arguments") ∧
        runCallB cfg http fetch st input kvs =
          runCallB cfg http fetch st input (objEraseAll kvs "arguments")) ∧
      (alookup kvs "headers" = some .null →
        callField kvs "headers" = .obj [] ∧
        runCallA cfg http fetch st input kvs =
          runCallA cfg http fetch st input (objEraseAll kvs "headers") ∧
        runCallB cfg http fetch st input kvs =
          runCallB cfg http fetch st input (objEraseAll kvs "headers")) := by
  intro cfg http fetch st input kvs
  constructor
  · intro h
    have hcf : callField kvs "arguments" = .obj [] := by
      unfold callField getDefault
      rw [h]
      rfl
    have hcf' : callField (objEraseAll kvs "arguments") "arguments" = .obj [] := by
      unfold callField getDefault
      rw [alookup_eraseAll_self]
      rfl
    have h1 : alookup kvs "path" = alookup (objEraseAll kvs "arguments") "path" :=
      (alookup_eraseAll_ne kvs "arguments" "path" (by decide)).symm
    have h2 : callMethod kvs = callMethod (objEraseAll kvs "arguments") :=
      callMethod_ext _ _
        (alookup_eraseAll_ne kvs "arguments" "method" (by decide)).symm
    have h4 : callField kvs "headers" = callField (objEraseAll kvs "arguments") "headers" :=
      callField_ext _ _ _
        (alookup_eraseAll_ne kvs "arguments" "headers" (by decide)).symm
    have h3 : callField kvs "arguments" =
        callField (objEraseAll kvs "arguments") "arguments" := by
      rw [hcf, hcf']
    exact ⟨hcf, runCallA_ext cfg http fetch st input _ _ h1 h2 h3 h4,
           runCallB_ext cfg http fetch st input _ _ h1 h2 h3 h4⟩
  · intro h
    have hcf : callField kvs "headers" = .obj [] := by
      unfold callField getDefault
      rw [h]
      rfl
    have hcf' : callField (objEraseAll kvs "headers") "headers" = .obj [] := by
      unfold callField getDefault
      rw [alookup_eraseAll_self]
      rfl
    have h1 : alookup kvs "path" = alookup (objEraseAll kvs "headers") "path" :=
      (alookup_eraseAll_ne kvs "headers" "path" (by decide)).symm
    have h2 : callMethod kvs = callMethod (objEraseAll kvs "headers") :=
      callMethod_ext _ _
        (alookup_eraseAll_ne kvs "headers" "method" (by decide)).symm
    have h3 : callField kvs "arguments" =
        callField (objEraseAll kvs "headers") "arguments" :=
      callField_ext _ _ _
        (alookup_eraseAll_ne kvs "headers" "arguments" (by decide)).symm
    have h4 : callField kvs "headers" =
        callField (objEraseAll kvs "headers") "headers" := by
      rw [hcf, hcf']
    exact ⟨hcf, runCallA_ext cfg http fetch st input _ _ h1 h2 h3 h4,
           runCallB_ext cfg http fetch st input _ _ h1 h2 h3 h4⟩

/-- Claim C10, witness: the call `{"path": "/x", "arguments": null}` is
dispatched identically to `{"path": "/x"}`. -/
theorem claim_C10_witness :
    alookup [("path", Json.str "/x"), ("arguments", Json.null)] "arguments" =
      some .null ∧
    callField [("path", Json.str "/x"), ("arguments", Json.null)] "arguments" =
      .obj [] ∧
    runCallA ⟨[], []⟩ (fun _ => ⟨200, "r"⟩) (.ok "") (some "http://h") "in"
        [("path", Json.str "/x"), ("arguments", Json.null)] =
      runCallA ⟨[], []⟩ (fun _ => ⟨200, "r"⟩) (.ok "") (some "http://h") "in"
        (objEraseAll [("path", Json.str "/x"), ("arguments", Json.null)]
          "arguments") :=
  ⟨rfl,
   ((claim_C10_null_fields_default_empty ⟨[], []⟩ (fun _ => ⟨200, "r"⟩) (.ok "")
     (some "http://h") "in" [("path", Json.str "/x"), ("arguments", Json.null)]).1
     rfl).1,
   ((claim_C10_null_fields_default_empty ⟨[], []⟩ (fun _ => ⟨200, "r"⟩) (.ok "")
     (some "http://h") "in" [("path", Json.str "/x"), ("arguments", Json.null)]).1
     rfl).2.1⟩

/-- Claim C1: a structured call extracted from model output, with the base
URL already resolved, is dispatched as one HTTP request to the URL
obtained by joining the path to the base — a GET carrying the arguments
as query parameters when the (defaulted) method upper-cases to GET, and a
request carrying the arguments as a JSON body for any other declared
method — and the raw response body text is returned verbatim, on both
drivers. -/
theorem claim_C1_structured_call_dispatch :
    ∀ (cfg : Cfg) (http : Http) (fetch : Except PyError String)
      (base input block : String) (kvs : List (String × Json)) (p m : String)
      (hs : List (String × Json)),
      GoodCall extractJsonA input block kvs p m →
      GoodCall extractJsonB input block kvs p m →
      callField kvs "headers" = .obj hs →
      (m = "GET" →
        ∀ resp : Response,
          http ⟨"GET", joinToolUrl base p, some (callField kvs "arguments"),
            none, mergedHeaders cfg.defaultHeaders hs⟩ = resp →
          ¬ (400 ≤ resp.status ∧ resp.status < 600) →
          processA cfg http fetch (some base) input = (some base, .ok resp.text) ∧
          processB cfg http fetch (some base) input = (some base, .ok resp.text)) ∧
      (m ≠ "GET" →
        ∀ resp : Response,
          http ⟨"POST", joinToolUrl base p, none,
            some (callField kvs "arguments"),
            mergedHeaders cfg.defaultHeaders hs⟩ = resp →
          ¬ (400 ≤ resp.status ∧ resp.status < 600) →
          processA cfg http fetch (some base) input = (some base, .ok resp.text) ∧
          processB cfg http fetch (some base) input = (some base, .ok resp.text)) := by
  intro cfg http fetch base input block kvs p m hs hA hB hhs
  have hexecA := processA_good cfg http fetch base input block kvs p m hA
  have hexecB := processB_good cfg http fetch base input block kvs p m hB
  constructor
  · intro hget resp hresp hstatus
    subst hget
    have hexec : execCall cfg http base "GET" p (callField kvs "arguments")
        (callField kvs "headers") = .ok resp.text := by
      have hup : pyUpper "GET" = "GET" := rfl
      simp only [execCall, if_pos rfl, hhs, doRequest, hup, hresp]
      exact if_neg hstatus
    rw [hexec] at hexecA hexecB
    exact ⟨hexecA, hexecB⟩
  · intro hpost resp hresp hstatus
    have hexec : execCall cfg http base m p (callField kvs "arguments")
        (callField kvs "headers") = .ok resp.text := by
      have hup : pyUpper "POST" = "POST" := rfl
      simp only [execCall, if_neg hpost, hhs, doRequest, hup, hresp]
      exact if_neg hstatus
    rw [hexec] at hexecA hexecB
    exact ⟨hexecA, hexecB⟩

/-- Claim C1, witness: the spec's own example — model output
`{"path": "/tools/fibonacci", "arguments": {"n": 4}}` with resolved base
`http://localhost:8000` issues a GET whose rendered URL is
`http://localhost:8000/tools/fibonacci?n=4`, and the body `3` comes back
verbatim from both drivers. -/
theorem claim_C1_witness :
    joinToolUrl "http://localhost:8000" "/tools/fibonacci" =
      "http://localhost:8000/tools/fibonacci" ∧
    renderUrl ⟨"GET", joinToolUrl "http://localhost:8000" "/tools/fibonacci",
      some (.obj [("n", Json.num "4")]), none, []⟩ =
      "http://localhost:8000/tools/fibonacci?n=4" ∧
    processA ⟨["http://localhost:8000/openapi.json"], []⟩
      (fun r => if r.url = "http://localhost:8000/tools/fibonacci"
        then ⟨200, "3"⟩ else ⟨404, "nf"⟩)
      (.ok "") (some "http://localhost:8000")
      "\x7b\"path\": \"/tools/fibonacci\", \"arguments\": \x7b\"n\": 4\x7d\x7d" =
      (some "http://localhost:8000", .ok "3") ∧
    processB ⟨["http://localhost:8000/openapi.json"], []⟩
      (fun r => if r.url = "http://localhost:8000/tools/fibonacci"
        then ⟨200, "3"⟩ else ⟨404, "nf"⟩)
      (.ok "") (some "http://localhost:8000")
      "\x7b\"path\": \"/tools/fibonacci\", \"arguments\": \x7b\"n\": 4\x7d\x7d" =
      (some "http://localhost:8000", .ok "3") := by
  refine ⟨by decide, by decide, ?_⟩
  have h := (claim_C1_structured_call_dispatch
    ⟨["http://localhost:8000/openapi.json"], []⟩
    (fun r => if r.url = "http://localhost:8000/tools/fibonacci"
      then ⟨200, "3"⟩ else ⟨404, "nf"⟩)
    (.ok "") "http://localhost:8000"
    "\x7b\"path\": \"/tools/fibonacci\", \"arguments\": \x7b\"n\": 4\x7d\x7d"
    "\x7b\"path\": \"/tools/fibonacci\", \"arguments\": \x7b\"n\": 4\x7d\x7d"
    [("path", Json.str "/tools/fibonacci"),
     ("arguments", Json.obj [("n", Json.num "4")])]
    "/tools/fibonacci" "GET" []
    ⟨rfl, by decide, by rfl, rfl, by decide, rfl⟩
    ⟨rfl, by decide, by rfl, rfl, by decide, rfl⟩
    rfl).1 rfl ⟨200, "3"⟩ (by decide) (by decide)
  exact h

theorem rstripSlashL_no_slash (pre l : List Char) (hne : l ≠ [])
    (hl : ∀ c ∈ l, c ≠ '/') : rstripSlashL (pre ++ l) = pre ++ l := by
  unfold rstripSlashL
  have hdw : (pre ++ l).reverse.dropWhile (fun c => c = '/') = (pre ++ l).reverse := by
    rw [List.reverse_append]
    cases hrev : l.reverse with
    | nil => exact absurd (List.reverse_eq_nil_iff.mp hrev) hne
    | cons x xs =>
      have hx : x ∈ l := by
        have hxm : x ∈ l.reverse := by rw [hrev]; exact List.mem_cons_self x xs
        exact List.mem_reverse.mp hxm
      rw [List.cons_append, List.dropWhile_cons]
      simp [hl x hx]
  rw [hdw, List.reverse_reverse]

theorem urlsplitL_netloc_no_slash (url d : List Char) :
    ∀ c ∈ (urlsplitL url d).netloc, c ≠ '/' := by
  intro c hc
  simp only [urlsplitL] at hc
  split at hc
  · rename_i r
    have hp := List.mem_takeWhile_imp hc
    simp [netlocEnd] at hp
    exact hp.1
  · simp at hc

/-- Claim C3: a specification whose `servers[0].url` is a non-empty string
resolves the base URL to that value with trailing slashes stripped, for
every configured URL list (the fetch URL is ignored); a specification
without a `servers` member resolves to `scheme://netloc` of the first
configured spec URL. -/
theorem claim_C3_base_url_resolution :
    (∀ (fetchText : String) (specKvs ekvs : List (String × Json))
        (rest : List Json) (u : String) (urls : List String),
      loads fetchText = some (.obj specKvs) →
      alookup specKvs "servers" = some (.arr (Json.obj ekvs :: rest)) →
      alookup ekvs "url" = some (.str u) →
      u ≠ "" →
      resolveBaseFresh (.ok fetchText) urls = .ok (pyRstripSlash u)) ∧
    (∀ (fetchText : String) (specKvs : List (String × Json)) (primary : String)
        (more : List String),
      loads fetchText = some (.obj specKvs) →
      alookup specKvs "servers" = none →
      (urlsplitL primary.data []).scheme ≠ [] →
      (urlsplitL primary.data []).netloc ≠ [] →
      resolveBaseFresh (.ok fetchText) (primary :: more) =
        .ok (String.mk ((urlsplitL primary.data []).scheme ++
          ':' :: '/' :: '/' :: (urlsplitL primary.data []).netloc))) := by
  constructor
  · intro fetchText specKvs ekvs rest u urls hload hserv hurl hne
    simp only [resolveBaseFresh, candidateOf, hload, getDefault, hserv]
    simp [hurl, hne]
    intro hf
    simp [pyTruthy, hne] at hf
  · intro fetchText specKvs primary more hload hserv hscheme hnetloc
    simp only [resolveBaseFresh, candidateOf, hload, getDefault, hserv,
      Option.getD, resolveFallback]
    have heq : (urlsplitL primary.data []).scheme ++
        ':' :: '/' :: '/' :: (urlsplitL primary.data []).netloc =
        ((urlsplitL primary.data []).scheme ++ [':', '/', '/']) ++
          (urlsplitL primary.data []).netloc := by
      simp
    have hstrip : rstripSlashL ((urlsplitL primary.data []).scheme ++
        ':' :: '/' :: '/' :: (urlsplitL primary.data []).netloc) =
        (urlsplitL primary.data []).scheme ++
          ':' :: '/' :: '/' :: (urlsplitL primary.data []).netloc := by
      rw [heq]
      exact rstripSlashL_no_slash _ _ hnetloc (urlsplitL_netloc_no_slash _ _)
    simp only [pyRstripSlash, alookup]
    rw [hstrip]

/-- Claim C3, witness: `servers[0].url = "http://h/api//"` resolves to
`http://h/api` whatever the configured URLs are, and a spec without
`servers` resolves to `scheme://netloc` of the primary spec URL. -/
theorem claim_C3_witness :
    loads "\x7b\"servers\": [\x7b\"url\": \"http://h/api//\"\x7d]\x7d" =
      some (.obj [("servers", Json.arr [Json.obj
        [("url", Json.str "http://h/api//")]])]) ∧
    resolveBaseFresh
      (.ok "\x7b\"servers\": [\x7b\"url\": \"http://h/api//\"\x7d]\x7d")
      ["http://other:9/spec.json"] = .ok "http://h/api" ∧
    loads "\x7b\"title\": \"t\"\x7d" = some (.obj [("title", Json.str "t")]) ∧
    resolveBaseFresh (.ok "\x7b\"title\": \"t\"\x7d")
      ["http://localhost:8000/openapi.json"] = .ok "http://localhost:8000" := by
  refine ⟨by rfl, ?_, by rfl, ?_⟩
  · have h := claim_C3_base_url_resolution.1
      "\x7b\"servers\": [\x7b\"url\": \"http://h/api//\"\x7d]\x7d"
      [("servers", Json.arr [Json.obj [("url", Json.str "http://h/api//")]])]
      [("url", Json.str "http://h/api//")] [] "http://h/api//"
      ["http://other:9/spec.json"] (by rfl) rfl rfl (by decide)
    exact h.trans (congrArg Except.ok (by decide))
  · have h := claim_C3_base_url_resolution.2 "\x7b\"title\": \"t\"\x7d"
      [("title", Json.str "t")] "http://localhost:8000/openapi.json" []
      (by rfl) rfl (by decide) (by decide)
    exact h.trans (congrArg Except.ok (by decide))

theorem alookup_objInsert_self (kvs : List (String × Json)) (k : String) (v : Json) :
    alookup (objInsert kvs k v) k = some v := by
  induction kvs with
  | nil => simp [objInsert, alookup]
  | cons p rest ih =>
    obtain ⟨k0, v0⟩ := p
    by_cases hk : k0 = k
    · simp [objInsert, hk, alookup]
    · simp [objInsert, hk, alookup, ih]

theorem except_map_ok {α β γ : Type} (f : β → γ) (x : β) :
    Except.map f (.ok x : Except α β) = .ok (f x) := rfl

theorem alookup_objInsert_ne (kvs : List (String × Json)) (k k' : String) (v : Json)
    (h : k' ≠ k) : alookup (objInsert kvs k v) k' = alookup kvs k' := by
  have hne : ¬ (k = k') := fun hh => h hh.symm
  induction kvs with
  | nil => simp [objInsert, alookup, hne]
  | cons p rest ih =>
    obtain ⟨k0, v0⟩ := p
    by_cases hk : k0 = k
    · simp [objInsert, hk, alookup, hne]
    · simp [objInsert, hk, alookup, ih]

theorem alookup_objErase_ne (kvs : List (String × Json)) (k k' : String)
    (h : k' ≠ k) : alookup (objErase kvs k) k' = alookup kvs k' := by
  induction kvs with
  | nil => rfl
  | cons p rest ih =>
    obtain ⟨k0, v0⟩ := p
    by_cases hk : k0 = k
    · have hne : ¬ (k = k') := fun hh => h hh.symm
      simp [objErase, hk, alookup, hne]
    · simp [objErase, hk, alookup, ih]

theorem alookup_objErase_self (kvs : List (String × Json)) (k : String)
    (hnodup : keysNodupB kvs = true) : alookup (objErase kvs k) k = none := by
  induction kvs with
  | nil => rfl
  | cons p rest ih =>
    obtain ⟨k0, v0⟩ := p
    simp only [keysNodupB, Bool.and_eq_true] at hnodup
    obtain ⟨hn1, hn2⟩ := hnodup
    by_cases hk : k0 = k
    · cases hk
      simp only [objErase, if_pos rfl]
      simpa using hn1
    · simp [objErase, hk, alookup, ih hn2]

theorem reduceItems_ok (f : Json → Except PyError Json) :
    ∀ (l : List (String × Json)),
      (∀ p ∈ l, ∃ v', f p.2 = .ok v') →
      ∃ l', reduceItems f l = .ok l' ∧
        ∀ q ∈ l', ∃ v, (q.1, v) ∈ l ∧ f v = .ok q.2 := by
  intro l
  induction l with
  | nil => intro h; exact ⟨[], rfl, by simp⟩
  | cons p rest ih =>
    intro h
    obtain ⟨k, v⟩ := p
    obtain ⟨v', hv'⟩ := h (k, v) (List.mem_cons_self _ _)
    obtain ⟨rest', hrest', hprop⟩ := ih (fun q hq => h q (List.mem_cons_of_mem _ hq))
    refine ⟨(k, v') :: rest', by simp [reduceItems, hv', hrest'], ?_⟩
    intro q hq
    rcases List.mem_cons.mp hq with hq1 | hq2
    · subst hq1
      exact ⟨v, List.mem_cons_self _ _, hv'⟩
    · obtain ⟨w, hw, hfw⟩ := hprop q hq2
      exact ⟨w, List.mem_cons_of_mem _ hw, hfw⟩

theorem reduceOp_ok (op : Json) (hok : respObjOk op = true) :
    ∃ op', reduceOp op = .ok op' ∧
      ∀ opKvs, op' = .obj opKvs →
      ∀ rsJ, alookup opKvs "responses" = some rsJ →
      ∀ rsKvs, rsJ = .obj rsKvs →
      ∀ c v, (c, v) ∈ rsKvs → (c.startsWith "2" ∨ c.startsWith "3") := by
  cases op with
  | obj okvs =>
    simp only [respObjOk] at hok
    cases hr : alookup okvs "responses" with
    | none =>
      refine ⟨.obj okvs, by simp [reduceOp, hr], ?_⟩
      intro opKvs hop rsJ hrs
      injection hop with hop
      subst hop
      rw [hr] at hrs
      simp at hrs
    | some rv =>
      rw [hr] at hok
      cases rv with
      | obj rs =>
        refine ⟨.obj (objInsert okvs "responses"
          (.obj (rs.filter (fun p => p.1.startsWith "2" ∨ p.1.startsWith "3")))),
          by simp [reduceOp, hr, reduceResponses, except_map_ok], ?_⟩
        intro opKvs hop rsJ hrs rsKvs hrsk c v hmem
        injection hop with hop
        subst hop
        rw [alookup_objInsert_self] at hrs
        injection hrs with hrs
        subst hrs
        injection hrsk with hrsk
        subst hrsk
        have hmf := List.mem_filter.mp hmem
        simpa using hmf.2
      | null => simp at hok
      | bool b => simp at hok
      | num raw => simp at hok
      | str s => simp at hok
      | arr xs => simp at hok
  | null =>
    refine ⟨.null, by simp [reduceOp], ?_⟩
    intro opKvs hop
    simp at hop
  | bool b =>
    refine ⟨.bool b, by simp [reduceOp], ?_⟩
    intro opKvs hop
    simp at hop
  | num raw =>
    refine ⟨.num raw, by simp [reduceOp], ?_⟩
    intro opKvs hop
    simp at hop
  | str s =>
    refine ⟨.str s, by simp [reduceOp], ?_⟩
    intro opKvs hop
    simp at hop
  | arr xs =>
    refine ⟨.arr xs, by simp [reduceOp], ?_⟩
    intro opKvs hop
    simp at hop

theorem reducePathItem_ok (pi : Json) (hok : pathItemOk pi = true) :
    ∃ pi', reducePathItem pi = .ok pi' ∧
      ∀ piKvs, pi' = .obj piKvs →
      ∀ mk opJ, (mk, opJ) ∈ piKvs →
      ∀ opKvs, opJ = .obj opKvs →
      ∀ rsJ, alookup opKvs "responses" = some rsJ →
      ∀ rsKvs, rsJ = .obj rsKvs →
      ∀ c v, (c, v) ∈ rsKvs → (c.startsWith "2" ∨ c.startsWith "3") := by
  cases pi with
  | obj pkvs =>
    simp only [pathItemOk, List.all_eq_true] at hok
    have hall : ∀ p ∈ pkvs, ∃ v', reduceOp p.2 = .ok v' := by
      intro p hp
      obtain ⟨op', hop', _⟩ := reduceOp_ok p.2 (hok p hp)
      exact ⟨op', hop'⟩
    obtain ⟨pkvs', hred, hprop⟩ := reduceItems_ok reduceOp pkvs hall
    refine ⟨.obj pkvs', by simp [reducePathItem, hred, except_map_ok], ?_⟩
    intro piKvs hpi mk opJ hmem opKvs hop rsJ hrs rsKvs hrsk c v hcv
    injection hpi with hpi
    subst hpi
    obtain ⟨w, hw, hfw⟩ := hprop (mk, opJ) hmem
    obtain ⟨op', hop', hprop2⟩ := reduceOp_ok w (hok (mk, w) hw)
    rw [hop'] at hfw
    injection hfw with hfw
    subst hfw
    exact hprop2 opKvs hop rsJ hrs rsKvs hrsk c v hcv
  | null => simp [pathItemOk] at hok
  | bool b => simp [pathItemOk] at hok
  | num raw => simp [pathItemOk] at hok
  | str s => simp [pathItemOk] at hok
  | arr xs => simp [pathItemOk] at hok

/-- Claim C6 (amended): for every input string parsing as a JSON *object*
whose `paths` member (when present) is a dict of dict path items with
dict-valued `responses`, `_reduce_spec` succeeds, its output is the
serialization of a JSON value (hence parses back as JSON), the reduced
value has no top-level `components` key, and every remaining response
code starts with `2` or `3`.  (On valid JSON that is not an object the
operation raises instead — see the counterexample.) -/
theorem claim_C6_reduce_spec :
    ∀ (s : String) (j : Json),
      loads s = some j →
      specReducible j = true →
      ∃ j', reduceSpecJson j = .ok j' ∧
        reduceSpec s = .ok (dumpsJ j') ∧
        (∀ kvs', j' = .obj kvs' → alookup kvs' "components" = none) ∧
        respCodesOk j' := by
  intro s j hload hsr
  cases j with
  | obj kvs =>
    simp only [specReducible, Bool.and_eq_true] at hsr
    obtain ⟨hnodup, hpaths⟩ := hsr
    have herase : alookup (objErase kvs "components") "paths" =
        alookup kvs "paths" :=
      alookup_objErase_ne kvs "components" "paths" (by decide)
    have hcomp : alookup (objErase kvs "components") "components" = none :=
      alookup_objErase_self kvs "components" hnodup
    cases hp : alookup kvs "paths" with
    | none =>
      have hred : reduceSpecJson (.obj kvs) = .ok (.obj (objErase kvs "components")) := by
        simp [reduceSpecJson, herase, hp]
      refine ⟨.obj (objErase kvs "components"), hred, ?_, ?_, ?_⟩
      · simp [reduceSpec, hload, hred, except_map_ok]
      · intro kvs' hkvs'
        injection hkvs' with hkvs'
        subst hkvs'
        exact hcomp
      · intro kvs' hkvs' pathsKvs hlook
        injection hkvs' with hkvs'
        subst hkvs'
        rw [herase, hp] at hlook
        simp at hlook
    | some pv =>
      rw [hp] at hpaths
      cases pv with
      | obj pkvs =>
        simp only [List.all_eq_true] at hpaths
        have hall : ∀ p ∈ pkvs, ∃ v', reducePathItem p.2 = .ok v' := by
          intro p hpm
          obtain ⟨pi', hpi', _⟩ := reducePathItem_ok p.2 (hpaths p hpm)
          exact ⟨pi', hpi'⟩
        obtain ⟨pkvs', hredi, hprop⟩ := reduceItems_ok reducePathItem pkvs hall
        have hred : reduceSpecJson (.obj kvs) =
            .ok (.obj (objInsert (objErase kvs "components") "paths" (.obj pkvs'))) := by
          simp [reduceSpecJson, herase, hp, hredi, except_map_ok]
        refine ⟨_, hred, ?_, ?_, ?_⟩
        · simp [reduceSpec, hload, hred, except_map_ok]
        · intro kvs' hkvs'
          injection hkvs' with hkvs'
          subst hkvs'
          rw [alookup_objInsert_ne _ _ _ _ (by decide)]
          exact hcomp
        · intro kvs' hkvs' pathsKvs hlook pk piJ hpmem piKvs hpik mk opJ homem
            opKvs hopk rsJ hrs rsKvs hrsk c v hcv
          injection hkvs' with hkvs'
          subst hkvs'
          rw [alookup_objInsert_self] at hlook
          injection hlook with hlook
          injection hlook with hlook
          subst hlook
          obtain ⟨w, hw, hfw⟩ := hprop (pk, piJ) hpmem
          obtain ⟨pi', hpi', hprop2⟩ := reducePathItem_ok w (hpaths (pk, w) hw)
          rw [hpi'] at hfw
          injection hfw with hfw
          subst hfw
          exact hprop2 piKvs hpik mk opJ homem opKvs hopk rsJ hrs rsKvs hrsk c v hcv
      | null => simp at hpaths
      | bool b => simp at hpaths
      | num raw => simp at hpaths
      | str s2 => simp at hpaths
      | arr xs => simp at hpaths
  | null => simp [specReducible] at hsr
  | bool b => simp [specReducible] at hsr
  | num raw => simp [specReducible] at hsr
  | str s2 => simp [specReducible] at hsr
  | arr xs => simp [specReducible] at hsr

/-- Claim C6, counterexample: `"[]"` is valid JSON, yet `_reduce_spec`
raises (`[].pop("components", None)` is a `TypeError`) instead of
succeeding. -/
theorem claim_C6_counterexample :
    (loads "[]").isSome = true ∧ reduceSpec "[]" = .error .typeError := by
  constructor
  · decide
  · rfl

/-- Claim C6, witness: a spec with a `components` section and a 404
response reduces to the same spec without `components` and without the
404 entry. -/
theorem claim_C6_witness :
    loads "\x7b\"components\": 1, \"paths\": \x7b\"/a\": \x7b\"get\": \x7b\"responses\": \x7b\"200\": 1, \"404\": 2\x7d\x7d\x7d\x7d\x7d" =
      some (.obj [("components", Json.num "1"),
        ("paths", Json.obj [("/a", Json.obj [("get", Json.obj
          [("responses", Json.obj [("200", Json.num "1"), ("404", Json.num "2")])])])])]) ∧
    specReducible (.obj [("components", Json.num "1"),
      ("paths", Json.obj [("/a", Json.obj [("get", Json.obj
        [("responses", Json.obj [("200", Json.num "1"), ("404", Json.num "2")])])])])]) = true ∧
    (∃ j', reduceSpecJson (.obj [("components", Json.num "1"),
        ("paths", Json.obj [("/a", Json.obj [("get", Json.obj
          [("responses", Json.obj [("200", Json.num "1"), ("404", Json.num "2")])])])])]) = .ok j' ∧
      reduceSpec "\x7b\"components\": 1, \"paths\": \x7b\"/a\": \x7b\"get\": \x7b\"responses\": \x7b\"200\": 1, \"404\": 2\x7d\x7d\x7d\x7d\x7d" =
        .ok (dumpsJ j') ∧
      (∀ kvs', j' = .obj kvs' → alookup kvs' "components" = none) ∧
      respCodesOk j') :=
  ⟨by rfl, by rfl,
   claim_C6_reduce_spec
     "\x7b\"components\": 1, \"paths\": \x7b\"/a\": \x7b\"get\": \x7b\"responses\": \x7b\"200\": 1, \"404\": 2\x7d\x7d\x7d\x7d\x7d"
     (.obj [("components", Json.num "1"),
       ("paths", Json.obj [("/a", Json.obj [("get", Json.obj
         [("responses", Json.obj [("200", Json.num "1"), ("404", Json.num "2")])])])])])
     (by rfl) (by rfl)⟩

theorem takeWhile_all_append (p : Char → Bool) (l1 : List Char) (y : Char)
    (l2 : List Char) (h1 : ∀ x ∈ l1, p x = true) (hy : ¬ p y = true) :
    (l1 ++ y :: l2).takeWhile p = l1 ∧ (l1 ++ y :: l2).dropWhile p = y :: l2 := by
  induction l1 with
  | nil => simp [List.takeWhile_cons, List.dropWhile_cons, hy]
  | cons x xs ih =>
    have hx := h1 x (List.mem_cons_self x xs)
    obtain ⟨iht, ihd⟩ := ih (fun z hz => h1 z (List.mem_cons_of_mem _ hz))
    simp [List.takeWhile_cons, List.dropWhile_cons, hx, iht, ihd]

theorem takeWhile_all (p : Char → Bool) (l : List Char)
    (h : ∀ x ∈ l, p x = true) :
    l.takeWhile p = l ∧ l.dropWhile p = [] := by
  induction l with
  | nil => simp
  | cons x xs ih =>
    have hx := h x (List.mem_cons_self x xs)
    obtain ⟨iht, ihd⟩ := ih (fun z hz => h z (List.mem_cons_of_mem _ hz))
    simp [List.takeWhile_cons, List.dropWhile_cons, hx, iht, ihd]

theorem splitOnceChar_not_mem (c : Char) (l : List Char) (h : c ∉ l) :
    splitOnceChar c l = (l, none) := by
  have hall : ∀ x ∈ l, (fun x => decide (x ≠ c)) x = true := by
    intro x hx
    simp
    exact fun hh => h (hh ▸ hx)
  obtain ⟨ht, hd⟩ := takeWhile_all _ l hall
  simp only [splitOnceChar]
  rw [hd]
  show (l.takeWhile (fun x => x ≠ c), (none : Option (List Char))) = (l, none)
  rw [ht]

theorem splitOnceChar_first (c : Char) (l1 l2 : List Char) (h : c ∉ l1) :
    splitOnceChar c (l1 ++ c :: l2) = (l1, some l2) := by
  have hall : ∀ x ∈ l1, (fun x => decide (x ≠ c)) x = true := by
    intro x hx
    simp
    exact fun hh => h (hh ▸ hx)
  have hc : ¬ (fun x => decide (x ≠ c)) c = true := by simp
  obtain ⟨ht, hd⟩ := takeWhile_all_append _ l1 c l2 hall hc
  simp only [splitOnceChar]
  rw [hd]
  show ((l1 ++ c :: l2).takeWhile (fun x => x ≠ c), some l2) = (l1, some l2)
  rw [ht]

theorem dropWhile_not_head (p : Char → Bool) (l : List Char)
    (h : ∀ x ∈ l, ¬ p x = true) : l.dropWhile p = l := by
  cases l with
  | nil => rfl
  | cons x xs => simp [List.dropWhile_cons, h x (List.mem_cons_self x xs)]

theorem stripFilter_noop (l : List Char) (h : ∀ c ∈ l, 32 < c.toNat) :
    (((l.dropWhile c0OrSpace).reverse.dropWhile c0OrSpace).reverse.filter
        (fun c => !unsafeUrlChar c)) = l := by
  have h1 : l.dropWhile c0OrSpace = l := by
    apply dropWhile_not_head
    intro x hx
    simp [c0OrSpace]
    exact h x hx
  rw [h1]
  have h2 : l.reverse.dropWhile c0OrSpace = l.reverse := by
    apply dropWhile_not_head
    intro x hx
    simp [c0OrSpace]
    exact h x (List.mem_reverse.mp hx)
  rw [h2, List.reverse_reverse]
  apply List.filter_eq_self.mpr
  intro c hc
  have h32 := h c hc
  simp [unsafeUrlChar]
  refine ⟨?_, ?_, ?_⟩ <;> intro hh <;> subst hh <;> revert h32 <;> decide

theorem schemeChar_gt32 (c : Char) (h : schemeChar c = true) : 32 < c.toNat := by
  simp [schemeChar] at h
  rcases h with ⟨h1, h2⟩ | ⟨h1, h2⟩ | ⟨h1, h2⟩ | h | h | h
  · omega
  · omega
  · omega
  · subst h; decide
  · subst h; decide
  · subst h; decide

theorem schemeChar_ne_colon (c : Char) (h : schemeChar c = true) : c ≠ ':' := by
  intro hh
  subst hh
  simp [schemeChar] at h

theorem urlsplitL_base (scheme host rtail d : List Char)
    (hsne : scheme ≠ [])
    (hhead : isAsciiAlpha scheme.headI = true)
    (hschars : ∀ c ∈ scheme, schemeChar c = true)
    (hlower : scheme.map Char.toLower = scheme)
    (hhost : ∀ c ∈ host, hostChar c = true)
    (hrt : ∀ c ∈ rtail, 32 < c.toNat ∧ c ≠ '#' ∧ c ≠ '?') :
    urlsplitL (scheme ++ (':' :: ('/' :: ('/' :: (host ++ ('/' :: rtail)))))) d =
      ⟨scheme, host, '/' :: rtail, [], []⟩ := by
  have h32 : ∀ c ∈ scheme ++ (':' :: ('/' :: ('/' :: (host ++ ('/' :: rtail))))),
      32 < c.toNat := by
    intro c hc
    rcases List.mem_append.mp hc with hs | hrest
    · exact schemeChar_gt32 c (hschars c hs)
    · rcases List.mem_cons.mp hrest with rfl | hrest
      · decide
      rcases List.mem_cons.mp hrest with rfl | hrest
      · decide
      rcases List.mem_cons.mp hrest with rfl | hrest
      · decide
      rcases List.mem_append.mp hrest with hh | hrest
      · have := hhost c hh
        simp [hostChar] at this
        exact this.1
      rcases List.mem_cons.mp hrest with rfl | hrest
      · decide
      · exact (hrt c hrest).1
  have hstrip := stripFilter_noop _ h32
  have hcolon : ':' ∉ scheme := fun hmem =>
    schemeChar_ne_colon ':' (hschars ':' hmem) rfl
  have hsplit : splitOnceChar ':'
      (scheme ++ (':' :: ('/' :: ('/' :: (host ++ ('/' :: rtail)))))) =
      (scheme, some ('/' :: ('/' :: (host ++ ('/' :: rtail))))) :=
    splitOnceChar_first ':' scheme ('/' :: ('/' :: (host ++ ('/' :: rtail)))) hcolon
  have hall : scheme.all schemeChar = true := List.all_eq_true.mpr hschars
  have hhostall : ∀ x ∈ host, (!netlocEnd x) = true := by
    intro x hx
    have := hhost x hx
    simp [hostChar] at this
    simp [netlocEnd]
    exact ⟨this.2.1, this.2.2.1, this.2.2.2⟩
  have hslash : ¬ ((!netlocEnd '/') = true) := by decide
  have hnet := takeWhile_all_append (fun c => !netlocEnd c) host '/' rtail
    hhostall hslash
  have hhash : '#' ∉ '/' :: rtail := by
    intro hmem
    rcases List.mem_cons.mp hmem with hh | hh
    · exact absurd hh (by decide)
    · exact (hrt '#' hh).2.1 rfl
  have hquestion : '?' ∉ '/' :: rtail := by
    intro hmem
    rcases List.mem_cons.mp hmem with hh | hh
    · exact absurd hh (by decide)
    · exact (hrt '?' hh).2.2 rfl
  have hfrag := splitOnceChar_not_mem '#' ('/' :: rtail) hhash
  have hquery := splitOnceChar_not_mem '?' ('/' :: rtail) hquestion
  simp only [urlsplitL, hstrip, hsplit, hnet.1, hnet.2, hfrag, hquery]
  rw [if_pos ⟨hsne, hhead, hall⟩]
  simp only [hlower, hnet.1, hnet.2, hfrag, hquery]

theorem urlsplitL_plain (core d : List Char)
    (hne : core ≠ [])
    (hhead : core.headI ≠ '/')
    (hchars : ∀ c ∈ core, 32 < c.toNat ∧ c ≠ ':' ∧ c ≠ '#' ∧ c ≠ '?') :
    urlsplitL core d = ⟨d, [], core, [], []⟩ := by
  have h32 : ∀ c ∈ core, 32 < c.toNat := fun c hc => (hchars c hc).1
  have hstrip := stripFilter_noop _ h32
  have hcolon : ':' ∉ core := fun hmem => (hchars ':' hmem).2.1 rfl
  have hsplit := splitOnceChar_not_mem ':' core hcolon
  have hhash : '#' ∉ core := fun hmem => (hchars '#' hmem).2.2.1 rfl
  have hquestion : '?' ∉ core := fun hmem => (hchars '?' hmem).2.2.2 rfl
  have hfrag := splitOnceChar_not_mem '#' core hhash
  have hquery := splitOnceChar_not_mem '?' core hquestion
  cases hcore : core with
  | nil => exact absurd hcore hne
  | cons x xs =>
    subst hcore
    have hx : x ≠ '/' := by simpa using hhead
    simp only [urlsplitL, hstrip, hsplit]
    split
    · rename_i r heq
      injection heq with h1 h2
      exact absurd h1 hx
    · simp only [hfrag, hquery]

theorem splitOnChar_no_sep (c : Char) (s : List Char) (h : c ∉ s) :
    splitOnChar c s = [s] := by
  induction s with
  | nil => rfl
  | cons x xs ih =>
    have hx : ¬ (x = c) := fun hh => h (hh ▸ List.mem_cons_self x xs)
    have ihr := ih (fun hm => h (List.mem_cons_of_mem _ hm))
    simp [splitOnChar, hx, ihr]

theorem splitOnChar_cons_sep (c : Char) (l1 l2 : List Char) (h : c ∉ l1) :
    splitOnChar c (l1 ++ c :: l2) = l1 :: splitOnChar c l2 := by
  induction l1 with
  | nil => simp [splitOnChar]
  | cons x xs ih =>
    have hx : ¬ (x = c) := fun hh => h (hh ▸ List.mem_cons_self x xs)
    have ihr := ih (fun hm => h (List.mem_cons_of_mem _ hm))
    simp [splitOnChar, hx, ihr]

theorem intercalateChar_cons (c : Char) (s : List Char) (segs : List (List Char))
    (h : segs ≠ []) :
    intercalateChar c (s :: segs) = s ++ c :: intercalateChar c segs := by
  cases segs with
  | nil => exact absurd rfl h
  | cons y ys => rfl

theorem splitOnChar_intercalate (c : Char) :
    ∀ (segs : List (List Char)), segs ≠ [] → (∀ s ∈ segs, c ∉ s) →
      splitOnChar c (intercalateChar c segs) = segs := by
  intro segs
  induction segs with
  | nil => intro h _; exact absurd rfl h
  | cons s rest ih =>
    intro _ hmem
    cases rest with
    | nil =>
      simp only [intercalateChar]
      exact splitOnChar_no_sep c s (hmem s (List.mem_cons_self _ _))
    | cons s2 rest2 =>
      rw [intercalateChar_cons c s (s2 :: rest2) (by simp)]
      rw [splitOnChar_cons_sep c s _ (hmem s (List.mem_cons_self _ _))]
      rw [ih (by simp) (fun t ht => hmem t (List.mem_cons_of_mem _ ht))]

theorem keepLastFilter_cons (x : List Char) (l : List (List Char)) (h : l ≠ []) :
    keepLastFilter (x :: l) =
      if x = [] then keepLastFilter l else x :: keepLastFilter l := by
  cases l with
  | nil => exact absurd rfl h
  | cons y ys => rfl

theorem keepLastFilter_append (l1 l2 : List (List Char)) (h : l2 ≠ []) :
    keepLastFilter (l1 ++ l2) =
      l1.filter (fun s => !s.isEmpty) ++ keepLastFilter l2 := by
  induction l1 with
  | nil => simp
  | cons x xs ih =>
    have hne : xs ++ l2 ≠ [] := fun hh => h (List.append_eq_nil.mp hh).2
    rw [List.cons_append, keepLastFilter_cons x (xs ++ l2) hne, ih,
      List.filter_cons]
    by_cases hx : x = []
    · simp [hx]
    · simp [hx, List.isEmpty_iff]

theorem keepLastFilter_all_ne (l : List (List Char)) (h : ∀ s ∈ l, s ≠ []) :
    keepLastFilter l = l := by
  induction l with
  | nil => rfl
  | cons x xs ih =>
    cases xs with
    | nil => rfl
    | cons y ys =>
      rw [keepLastFilter_cons x (y :: ys) (by simp)]
      rw [if_neg (h x (List.mem_cons_self _ _))]
      rw [ih (fun s hs => h s (List.mem_cons_of_mem _ hs))]

theorem filterMiddle_cons (x : List Char) (l : List (List Char)) (h : l ≠ []) :
    filterMiddle (x :: l) = x :: keepLastFilter l := by
  cases l with
  | nil => exact absurd rfl h
  | cons y ys => rfl

theorem foldl_resolve_no_dots :
    ∀ (segs acc : List (List Char)),
      (∀ s ∈ segs, s ≠ ['.'] ∧ s ≠ ['.', '.']) →
      segs.foldl
        (fun acc seg =>
          if seg = ['.', '.'] then acc.dropLast
          else if seg = ['.'] then acc else acc ++ [seg]) acc = acc ++ segs := by
  intro segs
  induction segs with
  | nil => intro acc _; simp
  | cons s rest ih =>
    intro acc h
    have hs := h s (List.mem_cons_self _ _)
    rw [List.foldl_cons, if_neg hs.2, if_neg hs.1,
      ih (acc ++ [s]) (fun t ht => h t (List.mem_cons_of_mem _ ht))]
    simp

theorem resolveSegs_no_dots (segs : List (List Char))
    (h : ∀ s ∈ segs, s ≠ ['.'] ∧ s ≠ ['.', '.']) :
    resolveSegs segs = segs := by
  have := foldl_resolve_no_dots segs [] h
  simpa [resolveSegs] using this

theorem intercalate_base_core :
    ∀ (bsegs psegs : List (List Char)), psegs ≠ [] →
      intercalateChar '/' ([] :: (bsegs ++ psegs)) =
        bpathOf bsegs ++ '/' :: intercalateChar '/' psegs := by
  intro bsegs
  induction bsegs with
  | nil =>
    intro psegs hp
    rw [List.nil_append]
    rw [intercalateChar_cons '/' [] psegs hp]
    simp [bpathOf]
  | cons b bs ih =>
    intro psegs hp
    have hne : bs ++ psegs ≠ [] := fun hh => hp (List.append_eq_nil.mp hh).2
    have h1 : intercalateChar '/' ([] :: ((b :: bs) ++ psegs)) =
        '/' :: intercalateChar '/' ((b :: bs) ++ psegs) := by
      rw [intercalateChar_cons '/' [] _ (by simp)]
      rfl
    have h2 : intercalateChar '/' ((b :: bs) ++ psegs) =
        b ++ '/' :: intercalateChar '/' (bs ++ psegs) := by
      rw [List.cons_append, intercalateChar_cons '/' b _ hne]
    have h3 := ih psegs hp
    have h4 : intercalateChar '/' ([] :: (bs ++ psegs)) =
        '/' :: intercalateChar '/' (bs ++ psegs) := by
      rw [intercalateChar_cons '/' [] _ hne]
      rfl
    rw [h1, h2]
    have hb : bpathOf (b :: bs) = ('/' :: b) ++ bpathOf bs := by
      simp [bpathOf]
    rw [hb, List.append_assoc, ← h3, h4]
    simp

theorem intercalate_head_cons (p : List Char) (rest : List (List Char))
    (c : Char) (cs : List Char) (hp : p = c :: cs) :
    ∃ t, intercalateChar '/' (p :: rest) = c :: t := by
  cases rest with
  | nil => exact ⟨cs, by simp [intercalateChar, hp]⟩
  | cons q qs =>
    rw [intercalateChar_cons '/' p _ (by simp)]
    exact ⟨cs ++ '/' :: intercalateChar '/' (q :: qs), by simp [hp]⟩

theorem mem_intercalateChar (ch c : Char) :
    ∀ segs : List (List Char), c ∈ intercalateChar ch segs →
      c = ch ∨ ∃ s ∈ segs, c ∈ s := by
  intro segs
  induction segs with
  | nil => intro h; simp [intercalateChar] at h
  | cons s rest ih =>
    intro h
    cases rest with
    | nil =>
      simp only [intercalateChar] at h
      exact Or.inr ⟨s, List.mem_cons_self _ _, h⟩
    | cons s2 rest2 =>
      rw [intercalateChar_cons ch s (s2 :: rest2) (by simp)] at h
      rcases List.mem_append.mp h with hh | hh
      · exact Or.inr ⟨s, List.mem_cons_self _ _, hh⟩
      · rcases List.mem_cons.mp hh with rfl | hh
        · exact Or.inl rfl
        · rcases ih hh with hc | ⟨t, ht, hct⟩
          · exact Or.inl hc
          · exact Or.inr ⟨t, List.mem_cons_of_mem _ ht, hct⟩

theorem mem_bpathOf (c : Char) (bsegs : List (List Char))
    (h : c ∈ bpathOf bsegs) : c = '/' ∨ ∃ s ∈ bsegs, c ∈ s := by
  unfold bpathOf at h
  rcases List.mem_flatten.mp h with ⟨l, hl, hcl⟩
  rcases List.mem_map.mp hl with ⟨s, hs, rfl⟩
  rcases List.mem_cons.mp hcl with rfl | hcs
  · exact Or.inl rfl
  · exact Or.inr ⟨s, hs, hcs⟩

theorem bpath_slash_head (bsegs : List (List Char)) (rest : List Char) :
    ∃ rt, bpathOf bsegs ++ '/' :: rest = '/' :: rt := by
  cases bsegs with
  | nil => exact ⟨rest, rfl⟩
  | cons b bs => exact ⟨b ++ bpathOf bs ++ '/' :: rest, by simp [bpathOf]⟩

theorem lstrip_replicate (core : List Char) (hne : core ≠ [])
    (hhead : core.headI ≠ '/') :
    ∀ k : Nat, lstripSlashL (List.replicate k '/' ++ core) = core := by
  intro k
  induction k with
  | zero =>
    simp only [List.replicate, List.nil_append]
    cases core with
    | nil => rfl
    | cons x xs =>
      have hx : ¬ (x = '/') := by simpa using hhead
      simp [lstripSlashL, List.dropWhile_cons, hx]
  | succ n ih =>
    rw [List.replicate_succ, List.cons_append]
    simpa [lstripSlashL, List.dropWhile_cons] using ih

theorem urlunsplitL_std (scheme host p : List Char)
    (hhost : host ≠ []) (hscheme : scheme ≠ [])
    (hp : p.take 1 = ['/']) :
    urlunsplitL ⟨scheme, host, p, [], []⟩ =
      scheme ++ (':' :: ('/' :: ('/' :: (host ++ p)))) := by
  simp [urlunsplitL, hhost, hscheme, hp]

theorem getLast?_mem_of_ne_nil :
    ∀ (l : List (List Char)), l ≠ [] → ∃ x, l.getLast? = some x ∧ x ∈ l := by
  intro l
  induction l with
  | nil => intro h; exact absurd rfl h
  | cons a as ih =>
    intro _
    cases has : as with
    | nil => exact ⟨a, by simp, List.mem_cons_self _ _⟩
    | cons b bs =>
      subst has
      obtain ⟨x, hx, hmem⟩ := ih (by simp)
      refine ⟨x, ?_, List.mem_cons_of_mem _ hmem⟩
      rw [List.getLast?_cons_cons]
      exact hx

theorem usesNetloc_scheme_props :
    ∀ s ∈ usesNetloc, s ≠ [] →
      isAsciiAlpha s.headI = true ∧ s.all schemeChar = true ∧
        s.map Char.toLower = s ∧ ':' ∉ s := by
  decide

theorem plainSeg_ne_nil (s : List Char) (h : plainSeg s = true) : s ≠ [] := by
  intro hh
  subst hh
  simp [plainSeg] at h

theorem plainSeg_no_dots (s : List Char) (h : plainSeg s = true) :
    s ≠ ['.'] ∧ s ≠ ['.', '.'] := by
  simp [plainSeg] at h
  exact ⟨h.2.1, h.2.2.1⟩

theorem plainSeg_chars (s : List Char) (h : plainSeg s = true) :
    ∀ c ∈ s, segChar c = true := by
  simp [plainSeg] at h
  exact h.2.2.2

theorem segChar_props (c : Char) (h : segChar c = true) :
    32 < c.toNat ∧ c ≠ '/' ∧ c ≠ '?' ∧ c ≠ '#' ∧ c ≠ ':' := by
  simpa [segChar] using h

theorem string_data_ext (s t : String) (h : s.data = t.data) : s = t := by
  cases s
  cases t
  simp only at h
  rw [h]

theorem urljoinL_plain_segments
    (scheme host : List Char) (bsegs psegs : List (List Char))
    (hrel : usesRelative.contains scheme = true)
    (hnetl : usesNetloc.contains scheme = true)
    (hsne : scheme ≠ [])
    (hhost_ne : host ≠ [])
    (hhost : ∀ c ∈ host, hostChar c = true)
    (hbs : ∀ s ∈ bsegs, plainSeg s = true)
    (hps_ne : psegs ≠ [])
    (hps : ∀ s ∈ psegs, plainSeg s = true) :
    urljoinL (baseOfParts scheme host bsegs ++ ['/']) (intercalateChar '/' psegs) =
      baseOfParts scheme host bsegs ++ '/' :: intercalateChar '/' psegs := by
  have hmem : scheme ∈ usesNetloc := by simpa using hnetl
  obtain ⟨hhead, hallsc, hlower, hcolon⟩ := usesNetloc_scheme_props scheme hmem hsne
  have hschars : ∀ c ∈ scheme, schemeChar c = true := List.all_eq_true.mp hallsc
  obtain ⟨p0, prest, rfl⟩ : ∃ p0 prest, psegs = p0 :: prest := by
    cases psegs with
    | nil => exact absurd rfl hps_ne
    | cons a as => exact ⟨a, as, rfl⟩
  obtain ⟨c0, cs, hp0⟩ : ∃ c0 cs, p0 = c0 :: cs := by
    cases hp0 : p0 with
    | nil => exact absurd hp0 (plainSeg_ne_nil p0 (hps p0 (List.mem_cons_self _ _)))
    | cons c cs2 => exact ⟨c, cs2, rfl⟩
  have hc0 : 32 < c0.toNat ∧ c0 ≠ '/' ∧ c0 ≠ '?' ∧ c0 ≠ '#' ∧ c0 ≠ ':' :=
    segChar_props c0 (plainSeg_chars p0 (hps p0 (List.mem_cons_self _ _)) c0
      (by rw [hp0]; exact List.mem_cons_self _ _))
  obtain ⟨tcore, hcoret⟩ := intercalate_head_cons p0 prest c0 cs hp0
  have hcore_ne : intercalateChar '/' (p0 :: prest) ≠ [] := by
    rw [hcoret]; simp
  have hcore_head : (intercalateChar '/' (p0 :: prest)).headI ≠ '/' := by
    rw [hcoret]; simpa using hc0.2.1
  have hcore_chars : ∀ c ∈ intercalateChar '/' (p0 :: prest),
      32 < c.toNat ∧ c ≠ ':' ∧ c ≠ '#' ∧ c ≠ '?' := by
    intro c hcmem
    rcases mem_intercalateChar '/' c (p0 :: prest) hcmem with rfl | ⟨s, hs, hcs⟩
    · exact ⟨by decide, by decide, by decide, by decide⟩
    · have hsc := segChar_props c (plainSeg_chars s (hps s hs) c hcs)
      exact ⟨hsc.1, hsc.2.2.2.2, hsc.2.2.2.1, hsc.2.2.1⟩
  obtain ⟨rt, hrt⟩ : ∃ rt, bpathOf bsegs ++ ['/'] = '/' :: rt :=
    bpath_slash_head bsegs []
  have hrt_chars : ∀ c ∈ rt, 32 < c.toNat ∧ c ≠ '#' ∧ c ≠ '?' := by
    intro c hcm
    have hcm2 : c ∈ bpathOf bsegs ++ ['/'] := by
      rw [hrt]; exact List.mem_cons_of_mem _ hcm
    rcases List.mem_append.mp hcm2 with hh | hh
    · rcases mem_bpathOf c bsegs hh with rfl | ⟨s, hs, hcs⟩
      · exact ⟨by decide, by decide, by decide⟩
      · have hsc := segChar_props c (plainSeg_chars s (hbs s hs) c hcs)
        exact ⟨hsc.1, hsc.2.2.2.1, hsc.2.2.1⟩
    · rcases List.mem_cons.mp hh with rfl | hh
      · exact ⟨by decide, by decide, by decide⟩
      · simp at hh
  have hbase_shape : baseOfParts scheme host bsegs ++ ['/'] =
      scheme ++ (':' :: ('/' :: ('/' :: (host ++ ('/' :: rt))))) := by
    rw [← hrt]
    simp [baseOfParts, List.append_assoc]
  have hbsplit : urlsplitL (baseOfParts scheme host bsegs ++ ['/']) [] =
      ⟨scheme, host, '/' :: rt, [], []⟩ := by
    rw [hbase_shape]
    exact urlsplitL_base scheme host rt [] hsne hhead hschars hlower hhost hrt_chars
  have husplit : urlsplitL (intercalateChar '/' (p0 :: prest)) scheme =
      ⟨scheme, [], intercalateChar '/' (p0 :: prest), [], []⟩ :=
    urlsplitL_plain _ scheme hcore_ne hcore_head hcore_chars
  have hfree1 : ∀ s ∈ ([] :: (bsegs ++ [[]]) : List (List Char)), '/' ∉ s := by
    intro s hs
    rcases List.mem_cons.mp hs with rfl | hs
    · simp
    rcases List.mem_append.mp hs with hs | hs
    · intro hmem
      exact ((segChar_props '/' (plainSeg_chars s (hbs s hs) '/' hmem)).2.1) rfl
    · rcases List.mem_cons.mp hs with rfl | hs
      · simp
      · simp at hs
  have hfree2 : ∀ s ∈ p0 :: prest, '/' ∉ s := by
    intro s hs hmem
    exact ((segChar_props '/' (plainSeg_chars s (hps s hs) '/' hmem)).2.1) rfl
  have hint1 : intercalateChar '/' ([] :: (bsegs ++ [[]])) = bpathOf bsegs ++ ['/'] := by
    rw [intercalate_base_core bsegs [[]] (by simp)]
    rfl
  have hbp_split : splitOnChar '/' ('/' :: rt) = [] :: (bsegs ++ [[]]) := by
    rw [← hrt, ← hint1]
    exact splitOnChar_intercalate '/' _ (by simp) hfree1
  have hcore_split_eq :
      splitOnChar '/' (intercalateChar '/' (p0 :: prest)) = p0 :: prest :=
    splitOnChar_intercalate '/' _ (by simp) hfree2
  have hbp_last : ([] :: (bsegs ++ [[]]) : List (List Char)).getLast? = some [] := by
    have h3 : ([] :: (bsegs ++ [[]]) : List (List Char)) = ([] :: bsegs) ++ [[]] := by
      simp
    rw [h3]
    exact List.getLast?_concat _
  have htake1 : (intercalateChar '/' (p0 :: prest)).take 1 = [c0] := by
    rw [hcoret]
    rfl
  have hfm : filterMiddle ([] :: (bsegs ++ ([] :: (p0 :: prest)))) =
      [] :: (bsegs ++ (p0 :: prest)) := by
    rw [filterMiddle_cons _ _ (by simp)]
    rw [keepLastFilter_append bsegs ([] :: (p0 :: prest)) (by simp)]
    rw [keepLastFilter_cons [] (p0 :: prest) (by simp)]
    rw [if_pos rfl]
    rw [keepLastFilter_all_ne (p0 :: prest) (fun s hs => plainSeg_ne_nil s (hps s hs))]
    rw [List.filter_eq_self.mpr
      (fun s hs => by simpa using plainSeg_ne_nil s (hbs s hs))]
  have hres : resolveSegs ([] :: (bsegs ++ (p0 :: prest))) =
      [] :: (bsegs ++ (p0 :: prest)) := by
    apply resolveSegs_no_dots
    intro s hs
    rcases List.mem_cons.mp hs with rfl | hs
    · exact ⟨by decide, by decide⟩
    rcases List.mem_append.mp hs with hs | hs
    · exact plainSeg_no_dots s (hbs s hs)
    · exact plainSeg_no_dots s (hps s hs)
  obtain ⟨plast, hplast, hplmem⟩ := getLast?_mem_of_ne_nil (p0 :: prest) (by simp)
  have hseg_last : ([] :: (bsegs ++ (p0 :: prest)) : List (List Char)).getLast? =
      some plast := by
    have h3 : ([] :: (bsegs ++ (p0 :: prest)) : List (List Char)) =
        ([] :: bsegs) ++ (p0 :: prest) := by simp
    rw [h3, List.getLast?_append_of_ne_nil _ (by simp)]
    exact hplast
  have hplast_dots := plainSeg_no_dots plast (hps plast hplmem)
  have hp_eq : intercalateChar '/' ([] :: (bsegs ++ (p0 :: prest))) =
      bpathOf bsegs ++ '/' :: intercalateChar '/' (p0 :: prest) :=
    intercalate_base_core bsegs (p0 :: prest) (by simp)
  obtain ⟨rt2, hrt2⟩ := bpath_slash_head bsegs (intercalateChar '/' (p0 :: prest))
  have hp_ne : bpathOf bsegs ++ '/' :: intercalateChar '/' (p0 :: prest) ≠ [] := by
    rw [hrt2]; simp
  have hp_take : (bpathOf bsegs ++ '/' :: intercalateChar '/' (p0 :: prest)).take 1 =
      ['/'] := by
    rw [hrt2]
    rfl
  have hfinal : urlunsplitL ⟨scheme, host,
      bpathOf bsegs ++ '/' :: intercalateChar '/' (p0 :: prest), [], []⟩ =
      scheme ++ (':' :: ('/' :: ('/' :: (host ++
        (bpathOf bsegs ++ '/' :: intercalateChar '/' (p0 :: prest)))))) :=
    urlunsplitL_std scheme host _ hhost_ne hsne hp_take
  have hc0ne : ¬ (c0 = '/') := hc0.2.1
  simp only [urljoinL, hbsplit, husplit, hrel, hnetl, hcore_ne, hbp_split,
    hbp_last, htake1, hc0ne, hcore_split_eq, hfm, hres, hseg_last, hp_eq,
    hp_ne, hfinal, List.cons_append, List.nil_append, List.append_assoc,
    List.append_eq_nil, List.cons_ne_nil, ne_eq, not_false_eq_true,
    and_false, false_and, and_true, true_and, or_false, false_or, if_false,
    if_true, not_true, not_not, Option.some.injEq, reduceCtorEq]
  simp [hseg_last, hres, hplast_dots.1, hplast_dots.2, hc0ne, hp_eq, hp_ne,
    hfinal, baseOfParts, List.append_assoc]

/-- C5 (corrected): for a well-formed resolved base URL
`scheme://host/seg1/.../segk` (lowercase standard scheme, non-empty host,
plain dot-free segments) and a relative tool path made of plain segments
behind any number of leading slashes, the full request URL
`urljoin(base + "/", path.lstrip("/"))` is exactly
`base + "/" + stripped-path`, and the base's own path component is kept.
The unrestricted claim over every tool path is false: dot segments or
absolute references make `urljoin` rewrite or replace the base
(see the counterexample). -/
theorem claim_C5_join_is_concatenation
    (scheme host : List Char) (bsegs psegs : List (List Char)) (k : Nat)
    (hrel : usesRelative.contains scheme = true)
    (hnetl : usesNetloc.contains scheme = true)
    (hsne : scheme ≠ [])
    (hhost_ne : host ≠ [])
    (hhost : ∀ c ∈ host, hostChar c = true)
    (hbs : ∀ s ∈ bsegs, plainSeg s = true)
    (hps_ne : psegs ≠ [])
    (hps : ∀ s ∈ psegs, plainSeg s = true) :
    joinToolUrl (String.mk (baseOfParts scheme host bsegs))
        (String.mk (List.replicate k '/' ++ intercalateChar '/' psegs)) =
      String.mk (baseOfParts scheme host bsegs) ++ "/" ++
        String.mk (intercalateChar '/' psegs) := by
  obtain ⟨p0, prest, rfl⟩ : ∃ p0 prest, psegs = p0 :: prest := by
    cases psegs with
    | nil => exact absurd rfl hps_ne
    | cons a as => exact ⟨a, as, rfl⟩
  obtain ⟨c0, cs, hp0⟩ : ∃ c0 cs, p0 = c0 :: cs := by
    cases hp0 : p0 with
    | nil => exact absurd hp0 (plainSeg_ne_nil p0 (hps p0 (List.mem_cons_self _ _)))
    | cons c cs2 => exact ⟨c, cs2, rfl⟩
  have hc0 : 32 < c0.toNat ∧ c0 ≠ '/' ∧ c0 ≠ '?' ∧ c0 ≠ '#' ∧ c0 ≠ ':' :=
    segChar_props c0 (plainSeg_chars p0 (hps p0 (List.mem_cons_self _ _)) c0
      (by rw [hp0]; exact List.mem_cons_self _ _))
  obtain ⟨tcore, hcoret⟩ := intercalate_head_cons p0 prest c0 cs hp0
  have hcore_ne : intercalateChar '/' (p0 :: prest) ≠ [] := by
    rw [hcoret]; simp
  have hcore_head : (intercalateChar '/' (p0 :: prest)).headI ≠ '/' := by
    rw [hcoret]; simpa using hc0.2.1
  have hmain := urljoinL_plain_segments scheme host bsegs (p0 :: prest)
    hrel hnetl hsne hhost_ne hhost hbs (by simp) hps
  apply string_data_ext
  have hLHS : (joinToolUrl (String.mk (baseOfParts scheme host bsegs))
      (String.mk (List.replicate k '/' ++
        intercalateChar '/' (p0 :: prest)))).data =
      urljoinL (baseOfParts scheme host bsegs ++ ['/'])
        (lstripSlashL (List.replicate k '/' ++
          intercalateChar '/' (p0 :: prest))) := rfl
  have hRHS : (String.mk (baseOfParts scheme host bsegs) ++ "/" ++
      String.mk (intercalateChar '/' (p0 :: prest))).data =
      baseOfParts scheme host bsegs ++
        '/' :: intercalateChar '/' (p0 :: prest) := by
    simp [String.data_append]
  rw [hLHS, hRHS, lstrip_replicate _ hcore_ne hcore_head k]
  exact hmain

theorem claim_C5_counterexample :
    joinToolUrl ("http://localhost:8000") ("../x") = ("http://localhost:8000/x") ∧
      ("http://localhost:8000/x") ≠
        ("http://localhost:8000") ++ ("/") ++ ("../x") := by
  constructor
  · decide
  · decide

theorem claim_C5_witness :
    joinToolUrl (String.mk (baseOfParts ("http").data ("localhost:8000").data []))
        (String.mk (List.replicate 1 '/' ++
          intercalateChar '/' [("tools").data, ("fibonacci").data])) =
      String.mk (baseOfParts ("http").data ("localhost:8000").data []) ++ "/" ++
        String.mk (intercalateChar '/' [("tools").data, ("fibonacci").data]) :=
  claim_C5_join_is_concatenation ("http").data ("localhost:8000").data []
    [("tools").data, ("fibonacci").data] 1
    (by decide) (by decide) (by decide) (by decide) (by decide) (by decide)
    (by decide) (by decide)

end MCS
